import Mathlib

/-!
Shallow embedding of the lukso-orchestrator pairing & canonicalization engine
(`orchestrator/consensus/service.go`), of the pandora header cache
(`orchestrator/cache`, file `part_000`) and of the vanguard ingestion hook
(`orchestrator/vanguardchain/handler.go`).

Slots and hashes are Go `uint64` / 32-byte digests; we model slots as `Nat`
kept below `2^64` (with the wrap-around of unsigned subtraction made explicit
in `u64sub`) and hashes as opaque `Nat` values compared for equality, with the
all-zero hash `common.Hash{}` / `kv.EmptyHash` modelled as `0`.

The key-value database (`orchestrator/db/kv`) is not part of the sources;
following the specification, a per-chain hash store is a map `slot → record`
with upsert `Save`, exact `Get` and a dense `Range`, and the realm store is a
single scalar.  Storage writes may fail; a `FailCfg` oracle decides, per
operation and slot, whether the corresponding Go call would return an error.
-/

namespace Orchestrator

/-- Status of a per-slot header-hash record (`shared/types`). -/
inductive Status where
  | Pending
  | Verified
  | Skipped
  | Invalid
deriving DecidableEq, Repr

/-- 32-byte digest, modelled opaquely; `0` is the empty hash. -/
abbrev Hash := Nat

/-- `common.Hash{}` / `kv.EmptyHash`: the all-zero digest. -/
def EmptyHash : Hash := 0

/-- `types.HeaderHash`: a hash together with its verdict status. -/
structure HeaderHash where
  headerHash : Hash
  status : Status
deriving DecidableEq, Repr

/-- Modelled from the spec: a per-chain hash store is a keyed map
`slot → HeaderHashRecord` (`HashStore` in the spec, backed by
`orchestrator/db/kv` which is outside the given sources).  We represent it as
an association list where the most recent write for a slot shadows older
ones (`Save` is an upsert). -/
abbrev Store := List (Nat × HeaderHash)

/-- Exact lookup, `Get(slot) → record | nil` in the spec. -/
def Store.lookup : Store → Nat → Option HeaderHash
  | [], _ => none
  | (s, h) :: rest, slot => if s = slot then some h else Store.lookup rest slot

/-- Upsert, `Save(slot, record)` in the spec. -/
def Store.save (st : Store) (slot : Nat) (h : HeaderHash) : Store :=
  (slot, h) :: st

/-- The shared database state seen by the engine: the two chain stores and the
realm scalar `latestVerifiedSlot`. -/
structure DBState where
  vanguard : Store
  pandora : Store
  realm : Nat
deriving DecidableEq, Repr

/-- Failure-injection oracle for storage writes: for each kind of save and
each slot, whether the underlying database call returns an error.  A failed
save leaves the store unchanged. -/
structure FailCfg where
  vanguardFailAt : Nat → Bool
  pandoraFailAt : Nat → Bool
  realmFailAt : Nat → Bool

/-- The all-succeeding storage oracle. -/
def noFail : FailCfg := ⟨fun _ => false, fun _ => false, fun _ => false⟩

/-- `VanguardHeaderHashDB.SaveVanguardHeaderHash`; returns the new state and
whether the call errored. -/
def saveVanguardHeaderHash (cfg : FailCfg) (st : DBState) (slot : Nat) (h : HeaderHash) :
    DBState × Bool :=
  if cfg.vanguardFailAt slot then (st, true)
  else ({ st with vanguard := st.vanguard.save slot h }, false)

/-- `PandoraHeaderHashDB.SavePandoraHeaderHash`. -/
def savePandoraHeaderHash (cfg : FailCfg) (st : DBState) (slot : Nat) (h : HeaderHash) :
    DBState × Bool :=
  if cfg.pandoraFailAt slot then (st, true)
  else ({ st with pandora := st.pandora.save slot h }, false)

/-- `RealmDB.SaveLatestVerifiedRealmSlot`. -/
def saveLatestVerifiedRealmSlot (cfg : FailCfg) (st : DBState) (slot : Nat) :
    DBState × Bool :=
  if cfg.realmFailAt slot then (st, true)
  else ({ st with realm := slot }, false)

/-- Modelled from the spec: `Range(fromSlot, limit)` of the vanguard store
returns a dense array of length `limit` whose position `i` holds the record at
slot `fromSlot + i`, or `nil` when that slot is absent. -/
def vanguardHeaderHashes (st : Store) (fromSlot limit : Nat) : List (Option HeaderHash) :=
  (List.range limit).map fun i => st.lookup (fromSlot + i)

/-- Modelled from the spec: dense `Range` of the pandora store. -/
def pandoraHeaderHashes (st : Store) (fromSlot limit : Nat) : List (Option HeaderHash) :=
  (List.range limit).map fun i => st.lookup (fromSlot + i)

/-- `2^64`, the modulus of Go `uint64` arithmetic. -/
def U64 : Nat := 18446744073709551616

/-- Go `uint64` subtraction `a - b` (wraps around below zero). -/
def u64sub (a b : Nat) : Nat :=
  (a + (U64 - b % U64)) % U64

/-- `events.RealmPair`: a candidate pairing awaiting a verdict. -/
structure RealmPair where
  slot : Nat
  vanguardHash : Option HeaderHash
  pandoraHashes : List (Option HeaderHash)
deriving DecidableEq, Repr

/-- `consensus.databaseErrors`: the composite error triple sent on the engine
error channel; a `true` component models a non-nil Go error. -/
structure databaseErrors where
  vanguardErr : Bool
  pandoraErr : Bool
  realmErr : Bool
deriving DecidableEq, Repr

/-- `consensus.invalidationWorkPayload`: what `invokeInvalidation` hands to
`handlePreparedWork`. -/
structure invalidationWorkPayload where
  invalidationStartRealmSlot : Nat
  fromSlot : Nat
  possibleSkippedPair : List RealmPair
  pandoraHashes : List (Option HeaderHash)
  vanguardHashes : List (Option HeaderHash)
  pandoraOrphans : List (Nat × HeaderHash)
  vanguardOrphans : List (Nat × HeaderHash)
deriving DecidableEq, Repr

/-- Accumulated state of the verification loop of `handlePreparedWork`
(service.go:404-470): the mutable store state, the three error variables, the
classification collections, and the trace of values passed to
`SaveLatestVerifiedRealmSlot`. -/
structure Loop1Out where
  state : DBState
  vanguardErr : Bool
  pandoraErr : Bool
  realmErr : Bool
  possibleSkippedPair : List RealmPair
  pandoraOrphans : List (Nat × HeaderHash)
  vanguardOrphans : List (Nat × HeaderHash)
  realmSaves : List Nat
deriving DecidableEq, Repr

/-- The verification loop of `handlePreparedWork` (service.go:404-470).
Walks both batches in lockstep starting at `slot`; stops when either batch is
exhausted (`len(pandoraHeaderHashes) <= index` breaks, running off
`vanguardBlockHashes` ends the range loop).  A slot where both entries are
`nil` becomes a possible-skipped pair; a one-sided slot is recorded as an
orphan; when both are present the records are re-saved as `Verified` on both
stores and, if neither save failed, the realm watermark is saved at that
slot.  A failed chain save breaks the loop. -/
def verifyLoop (cfg : FailCfg) :
    List (Option HeaderHash) → List (Option HeaderHash) → Nat → Loop1Out → Loop1Out
  | [], _, _, acc => acc
  | _ :: _, [], _, acc => acc
  | van :: vans, pan :: pans, slot, acc =>
    match van, pan with
    | none, none =>
        verifyLoop cfg vans pans (slot + 1)
          { acc with possibleSkippedPair := acc.possibleSkippedPair ++ [⟨slot, none, []⟩] }
    | some v, none =>
        verifyLoop cfg vans pans (slot + 1)
          { acc with vanguardOrphans :=
              acc.vanguardOrphans ++ [(slot, ⟨v.headerHash, Status.Pending⟩)] }
    | none, some p =>
        verifyLoop cfg vans pans (slot + 1)
          { acc with pandoraOrphans :=
              acc.pandoraOrphans ++ [(slot, ⟨p.headerHash, Status.Pending⟩)] }
    | some v, some p =>
        let r1 := saveVanguardHeaderHash cfg acc.state slot ⟨v.headerHash, Status.Verified⟩
        let r2 := savePandoraHeaderHash cfg r1.1 slot ⟨p.headerHash, Status.Verified⟩
        if r1.2 || r2.2 then
          { acc with state := r2.1, vanguardErr := r1.2, pandoraErr := r2.2 }
        else
          let r3 := saveLatestVerifiedRealmSlot cfg r2.1 slot
          verifyLoop cfg vans pans (slot + 1)
            { acc with state := r3.1, vanguardErr := r1.2, pandoraErr := r2.2,
                       realmErr := r3.2, realmSaves := acc.realmSaves ++ [slot] }

/-- Orphan finalization, pandora side (service.go:511-516): every pandora
orphan slot is overwritten with the empty hash and `Skipped`; the error
variable keeps the result of the last save. -/
def skipOrphansPan (cfg : FailCfg) :
    List (Nat × HeaderHash) → DBState → Bool → DBState × Bool
  | [], st, err => (st, err)
  | (slot, _) :: rest, st, _ =>
      let r := savePandoraHeaderHash cfg st slot ⟨EmptyHash, Status.Skipped⟩
      skipOrphansPan cfg rest r.1 r.2

/-- Orphan finalization, vanguard side (service.go:519-524). -/
def skipOrphansVan (cfg : FailCfg) :
    List (Nat × HeaderHash) → DBState → Bool → DBState × Bool
  | [], st, err => (st, err)
  | (slot, _) :: rest, st, _ =>
      let r := saveVanguardHeaderHash cfg st slot ⟨EmptyHash, Status.Skipped⟩
      skipOrphansVan cfg rest r.1 r.2

/-- Result of the possible-skipped finalization loop. -/
structure PairsOut where
  state : DBState
  vanguardErr : Bool
  pandoraErr : Bool
  pendingPairs : List RealmPair
deriving DecidableEq, Repr

/-- Possible-skipped finalization (service.go:541-568): pairs above the
re-read watermark are re-queued as pending; pairs at or below it are written
as `Skipped` (zero-valued record, hence empty hash) on both stores; a failed
write breaks the loop. -/
def pairsPhase (cfg : FailCfg) (latest : Nat) :
    List RealmPair → DBState → List RealmPair → PairsOut
  | [], st, pend => ⟨st, false, false, pend⟩
  | pair :: rest, st, pend =>
    if pair.slot > latest then pairsPhase cfg latest rest st (pend ++ [pair])
    else
      let r1 := saveVanguardHeaderHash cfg st pair.slot ⟨EmptyHash, Status.Skipped⟩
      let r2 := savePandoraHeaderHash cfg r1.1 pair.slot ⟨EmptyHash, Status.Skipped⟩
      if r1.2 || r2.2 then ⟨r2.1, r1.2, r2.2, pend⟩
      else pairsPhase cfg latest rest r2.1 pend

/-- Result of the pending-pairs loop. -/
structure PendingOut where
  state : DBState
  vanguardErr : Bool
  pandoraErr : Bool
deriving DecidableEq, Repr

/-- Pending-pairs pass (service.go:583-598): a re-queued pair that carries a
vanguard hash (resp. a first pandora hash) is written as `Skipped` with that
hash; errors do not break the loop and the error variables keep the last
result. -/
def pendingPhase (cfg : FailCfg) :
    List RealmPair → DBState → Bool → Bool → PendingOut
  | [], st, vErr, pErr => ⟨st, vErr, pErr⟩
  | pair :: rest, st, vErr, pErr =>
    let r1 :=
      match pair.vanguardHash with
      | some vh => saveVanguardHeaderHash cfg st pair.slot ⟨vh.headerHash, Status.Skipped⟩
      | none => (st, vErr)
    let r2 :=
      match pair.pandoraHashes.head? with
      | some (some ph) =>
          savePandoraHeaderHash cfg r1.1 pair.slot ⟨ph.headerHash, Status.Skipped⟩
      | _ => (r1.1, pErr)
    pendingPhase cfg rest r2.1 r1.2 r2.2

/-- Gap filling, vanguard side (service.go:645-662): positions of the re-read
batch still holding `nil` whose slot, computed as `fromSlot + index`, does not
exceed the re-read watermark are written as `{EmptyHash, Skipped}`; errors do
not break the loop. -/
def gapFillVan (cfg : FailCfg) (fromSlot latest : Nat) :
    List (Option HeaderHash) → Nat → DBState → Bool → DBState × Bool
  | [], _, st, err => (st, err)
  | some _ :: rest, idx, st, err => gapFillVan cfg fromSlot latest rest (idx + 1) st err
  | none :: rest, idx, st, err =>
    if fromSlot + idx > latest then gapFillVan cfg fromSlot latest rest (idx + 1) st err
    else
      let r := saveVanguardHeaderHash cfg st (fromSlot + idx) ⟨EmptyHash, Status.Skipped⟩
      gapFillVan cfg fromSlot latest rest (idx + 1) r.1 r.2

/-- Gap filling, pandora side (service.go:664-680). -/
def gapFillPan (cfg : FailCfg) (fromSlot latest : Nat) :
    List (Option HeaderHash) → Nat → DBState → Bool → DBState × Bool
  | [], _, st, err => (st, err)
  | some _ :: rest, idx, st, err => gapFillPan cfg fromSlot latest rest (idx + 1) st err
  | none :: rest, idx, st, err =>
    if fromSlot + idx > latest then gapFillPan cfg fromSlot latest rest (idx + 1) st err
    else
      let r := savePandoraHeaderHash cfg st (fromSlot + idx) ⟨EmptyHash, Status.Skipped⟩
      gapFillPan cfg fromSlot latest rest (idx + 1) r.1 r.2

/-- Everything `handlePreparedWork` does after passing the invalidation-range
checks (service.go:510-695): orphan finalization (pandora loop first), the
possible-skipped loop, the pending-pairs loop, the dense re-read of both
stores over `[invalidationStartRealmSlot, +invalidationRange)` and the two
gap-filling loops.  Returns the final store state and the composite error
sent on the error channel, if any.  Orphan maps are iterated in insertion
order (Go map order is unspecified; all orphan writes store the same record
at pairwise-distinct slots, so the final state does not depend on it). -/
def latePhases (cfg : FailCfg) (fromSlot start latest range : Nat) (l : Loop1Out) :
    DBState × Option databaseErrors :=
  let rA := skipOrphansPan cfg l.pandoraOrphans l.state false
  let rB := skipOrphansVan cfg l.vanguardOrphans rA.1 false
  if rB.2 || rA.2 then (rB.1, some ⟨rB.2, rA.2, false⟩)
  else
    let q := pairsPhase cfg latest l.possibleSkippedPair rB.1 []
    if q.vanguardErr || q.pandoraErr then
      (q.state, some ⟨q.vanguardErr, q.pandoraErr, false⟩)
    else
      let rP := pendingPhase cfg q.pendingPairs q.state false false
      if rP.vanguardErr || rP.pandoraErr then
        (rP.state, some ⟨rP.vanguardErr, rP.pandoraErr, false⟩)
      else
        let finalVanguardBatch := vanguardHeaderHashes rP.state.vanguard start range
        let finalPandoraBatch := pandoraHeaderHashes rP.state.pandora start range
        let rV := gapFillVan cfg fromSlot latest finalVanguardBatch 0 rP.state false
        let rQ := gapFillPan cfg fromSlot latest finalPandoraBatch 0 rV.1 false
        if rV.2 || rQ.2 then (rQ.1, some ⟨rV.2, rQ.2, false⟩)
        else (rQ.1, none)

/-- Observable outcome of `handlePreparedWork`: final store state, the
composite error pushed on `errChan` (if any), whether `log.Fatal` was reached,
and the trace of watermark values passed to `SaveLatestVerifiedRealmSlot`. -/
structure HpwOut where
  state : DBState
  sentErrors : Option databaseErrors
  fatal : Bool
  realmSaves : List Nat
deriving DecidableEq, Repr

/-- Initial loop accumulator built from the payload fields
(service.go:388-400). -/
def initAcc (st : DBState) (w : invalidationWorkPayload) : Loop1Out :=
  ⟨st, false, false, false, w.possibleSkippedPair, w.pandoraOrphans, w.vanguardOrphans, []⟩

/-- `handlePreparedWork` (service.go:381-699).  Runs the verification loop;
on any recorded error sends the composite error and stops.  Otherwise
re-reads the watermark, computes the unsigned `invalidationRange`; a zero
range ends the pass, and the (dead, since the range is unsigned) negative
check would be fatal; otherwise the late phases run. -/
def handlePreparedWork (cfg : FailCfg) (st : DBState) (w : invalidationWorkPayload) : HpwOut :=
  let l := verifyLoop cfg w.vanguardHashes w.pandoraHashes w.fromSlot (initAcc st w)
  if l.vanguardErr || l.pandoraErr || l.realmErr then
    ⟨l.state, some ⟨l.vanguardErr, l.pandoraErr, l.realmErr⟩, false, l.realmSaves⟩
  else
    let latestSavedVerifiedRealmSlot := l.state.realm
    let invalidationRange := u64sub latestSavedVerifiedRealmSlot w.invalidationStartRealmSlot
    if invalidationRange = 0 then ⟨l.state, none, false, l.realmSaves⟩
    else if invalidationRange < 0 then ⟨l.state, none, true, l.realmSaves⟩
    else
      let r := latePhases cfg w.fromSlot w.invalidationStartRealmSlot
        latestSavedVerifiedRealmSlot invalidationRange l
      ⟨r.1, r.2, false, l.realmSaves⟩

/-! Stage views of a `noFail` run of `handlePreparedWork`, used to state the
claims about intermediate points of the pass. -/

/-- The verification-loop output of the pass. -/
def loopOut (st : DBState) (w : invalidationWorkPayload) : Loop1Out :=
  verifyLoop noFail w.vanguardHashes w.pandoraHashes w.fromSlot (initAcc st w)

/-- `latestSavedVerifiedRealmSlot` as re-read after the loop
(service.go:487). -/
def latestAfterLoop (st : DBState) (w : invalidationWorkPayload) : Nat :=
  (loopOut st w).state.realm

/-- `invalidationRange` (service.go:493), unsigned. -/
def invalidationRangeOf (st : DBState) (w : invalidationWorkPayload) : Nat :=
  u64sub (latestAfterLoop st w) w.invalidationStartRealmSlot

/-- Database state just before the gap-filling re-read, in an error-free
pass. -/
def preGapState (st : DBState) (w : invalidationWorkPayload) : DBState :=
  let l := loopOut st w
  let rA := skipOrphansPan noFail l.pandoraOrphans l.state false
  let rB := skipOrphansVan noFail l.vanguardOrphans rA.1 false
  let q := pairsPhase noFail (latestAfterLoop st w) l.possibleSkippedPair rB.1 []
  (pendingPhase noFail q.pendingPairs q.state false false).state

/-- Final database state of an error-free pass that reached the late
phases. -/
def postGapState (st : DBState) (w : invalidationWorkPayload) : DBState :=
  let sC := preGapState st w
  let latest := latestAfterLoop st w
  let range := invalidationRangeOf st w
  let fv := vanguardHeaderHashes sC.vanguard w.invalidationStartRealmSlot range
  let fp := pandoraHeaderHashes sC.pandora w.invalidationStartRealmSlot range
  let rV := gapFillVan noFail w.fromSlot latest fv 0 sC false
  (gapFillPan noFail w.fromSlot latest fp 0 rV.1 false).1

/-! ### `invokeInvalidation` and the `Canonicalize` default branch -/

/-- What `invokeInvalidation` (service.go:119-191) does, as a function of the
watermark it reads and of the results of the two dense `Range` reads (the
database itself is external).  Each constructor records which channel the
function touches: a root error or a read error is pushed on the buffered
error channel, an empty batch sends on the unbuffered skip channel, otherwise
the prepared payload is pushed on the buffered work channel. -/
inductive InvokeResult where
  | rootError
  | pandoraReadError
  | vanguardReadError
  | skip
  | payload (w : invalidationWorkPayload)
deriving DecidableEq, Repr

/-- `invokeInvalidation` (service.go:119-191): validates
`fromSlot ≤ latestVerifiedSlot`, reads the pandora batch then the vanguard
batch, short-circuits when either is empty, and otherwise assembles the work
payload with empty pair and orphan collections. -/
def invokeInvalidation (latestVerifiedRealmSlot fromSlot : Nat)
    (panRead vanRead : Except Unit (List (Option HeaderHash))) : InvokeResult :=
  if fromSlot > latestVerifiedRealmSlot then InvokeResult.rootError
  else
    match panRead with
    | Except.error _ => InvokeResult.pandoraReadError
    | Except.ok pans =>
      match vanRead with
      | Except.error _ => InvokeResult.vanguardReadError
      | Except.ok vans =>
        if pans.length < 1 || vans.length < 1 then InvokeResult.skip
        else
          InvokeResult.payload
            ⟨latestVerifiedRealmSlot, fromSlot, [], pans, vans, [], []⟩

/-- Outcome of the `default` branch of `Canonicalize`'s `select`
(service.go:233-267): either the function returns with its three named error
results and the resulting database state, or the goroutine blocks forever. -/
inductive CanonOutcome where
  | returned (vanguardErr pandoraErr realmErr : Bool) (st : DBState)
  | blocked (st : DBState)
deriving DecidableEq, Repr

/-- The `default` branch of `Canonicalize` (service.go:250-267), under the
stated channel preconditions: the `select` has already committed to
`default`, the buffered work and error channels are empty, and no other
goroutine sends or receives on the local unbuffered `skipChan`.
`invokeInvalidation` runs synchronously; when it pushes a payload,
`Canonicalize` receives it and runs `handlePreparedWork`, then returns with
all three named errors still nil (errors travel on the error channel, which
this branch never reads).  When `invokeInvalidation` instead reports a root
or read error it returns without a payload and `Canonicalize` blocks receiving on
the empty work channel; when it short-circuits on an empty batch it blocks
sending on the unbuffered skip channel that nobody receives from. -/
def canonicalizeDefaultBranch (cfg : FailCfg) (st : DBState) (fromSlot : Nat)
    (panRead vanRead : Except Unit (List (Option HeaderHash))) : CanonOutcome :=
  match invokeInvalidation st.realm fromSlot panRead vanRead with
  | InvokeResult.rootError => CanonOutcome.blocked st
  | InvokeResult.pandoraReadError => CanonOutcome.blocked st
  | InvokeResult.vanguardReadError => CanonOutcome.blocked st
  | InvokeResult.skip => CanonOutcome.blocked st
  | InvokeResult.payload w =>
      CanonOutcome.returned false false false (handlePreparedWork cfg st w).state

/-! ### Pandora header cache (`orchestrator/cache`, `part_000`)

The cached full headers carry mutable slices in Go, so aliasing matters: we
model header values in an explicit heap of cells addressed by `Nat` pointers,
with allocation at the end of the heap.  `types.CopyHeader` (outside the given
sources) is modelled from the spec as a deep copy: it allocates a fresh cell
holding the same value. -/

/-- Opaque full execution-chain header value. -/
abbrev Header := Nat

/-- The heap of header cells; a pointer is an index into it. -/
abbrev Heap := List Header

/-- Allocate a fresh cell; its pointer is distinct from every live pointer. -/
def Heap.alloc (h : Heap) (v : Header) : Heap × Nat :=
  (h ++ [v], h.length)

/-- Modelled from the spec: `types.CopyHeader` deep-copies a header, i.e.
allocates a fresh cell with an equal value. -/
def CopyHeader (h : Heap) (p : Nat) : Heap × Nat :=
  h.alloc (h.getD p 0)

/-- Capacity of the pandora header LRU (`maxPanHeaderCacheSize = 1 << 10`). -/
def maxPanHeaderCacheSize : Nat := 1024

/-- `cache.PanHeaderCache`: slot-keyed LRU of header pointers, most recent
first.  The `lru.Cache` library is outside the given sources; add/get are
modelled from the spec as bounded LRU operations. -/
structure PanHeaderCache where
  entries : List (Nat × Nat)
deriving DecidableEq, Repr

/-- `lru.Cache.Add`: insert or replace, moving the key to the front and
evicting beyond capacity. -/
def lruAdd (c : PanHeaderCache) (slot ptr : Nat) : PanHeaderCache :=
  ⟨((slot, ptr) :: c.entries.filter fun e => e.1 ≠ slot).take maxPanHeaderCacheSize⟩

/-- `PanHeaderCache.Put` (part_000:38-42): deep-copies the header and inserts
the copy; never fails. -/
def PanHeaderCache.Put (heap : Heap) (c : PanHeaderCache) (slot ptr : Nat) :
    Heap × PanHeaderCache :=
  let r := CopyHeader heap ptr
  (r.1, lruAdd c slot r.2)

/-- `PanHeaderCache.Get` (part_000:45-53): on a hit, returns a deep copy of
the held header and marks the entry most recently used; on a miss, fails with
`errInvalidSlot` (the cache's not-found error). -/
def PanHeaderCache.Get (heap : Heap) (c : PanHeaderCache) (slot : Nat) :
    Heap × PanHeaderCache × Except Unit Nat :=
  match c.entries.lookup slot with
  | some q =>
      let r := CopyHeader heap q
      (r.1, lruAdd c slot q, Except.ok r.2)
  | none => (heap, c, Except.error ())

/-! ### Vanguard ingestion hook (`orchestrator/vanguardchain/handler.go`) -/

/-- A beacon block, with the data its hash tree root is computed from kept
opaque. -/
structure BeaconBlock where
  slot : Nat
  body : Nat
deriving DecidableEq, Repr

/-- Observable side effects of `OnNewPendingVanguardBlock`. -/
inductive VanguardIngestEffect where
  | computedHashTreeRoot
  | savedHeaderHash (slot : Nat) (h : HeaderHash)
deriving DecidableEq, Repr

/-- `Service.OnNewPendingVanguardBlock` (handler.go:24-49): a nil block is
logged and dropped without computing a hash or touching the store; otherwise
the block's hash tree root is computed (`hashTreeRoot` models the external
`block.HashTreeRoot()`, which may fail) and a `{hash, Pending}` record is
saved at the block's slot.  Errors are logged, never surfaced: the function
returns nothing to its caller. -/
def OnNewPendingVanguardBlock (vanguardStore : Store) (block : Option BeaconBlock)
    (hashTreeRoot : BeaconBlock → Except Unit Hash) (saveFailAt : Nat → Bool) :
    Store × List VanguardIngestEffect :=
  match block with
  | none => (vanguardStore, [])
  | some b =>
    match hashTreeRoot b with
    | Except.error _ => (vanguardStore, [VanguardIngestEffect.computedHashTreeRoot])
    | Except.ok hash =>
      if saveFailAt b.slot then
        (vanguardStore, [VanguardIngestEffect.computedHashTreeRoot])
      else
        (vanguardStore.save b.slot ⟨hash, Status.Pending⟩,
          [VanguardIngestEffect.computedHashTreeRoot,
           VanguardIngestEffect.savedHeaderHash b.slot ⟨hash, Status.Pending⟩])

/-! ### Basic lemmas about the store and the unsigned arithmetic -/

@[simp]
theorem Store.lookup_save_self (st : Store) (slot : Nat) (h : HeaderHash) :
    (st.save slot h).lookup slot = some h := by
  simp [Store.save, Store.lookup]

theorem Store.lookup_save_of_ne (st : Store) {s slot : Nat} (h : HeaderHash)
    (hne : slot ≠ s) : (st.save slot h).lookup s = st.lookup s := by
  simp [Store.save, Store.lookup, hne]

theorem saveVanguardHeaderHash_noFail (st : DBState) (slot : Nat) (h : HeaderHash) :
    saveVanguardHeaderHash noFail st slot h =
      ({ st with vanguard := st.vanguard.save slot h }, false) := rfl

theorem savePandoraHeaderHash_noFail (st : DBState) (slot : Nat) (h : HeaderHash) :
    savePandoraHeaderHash noFail st slot h =
      ({ st with pandora := st.pandora.save slot h }, false) := rfl

theorem saveLatestVerifiedRealmSlot_noFail (st : DBState) (slot : Nat) :
    saveLatestVerifiedRealmSlot noFail st slot = ({ st with realm := slot }, false) := rfl

theorem u64sub_eq_sub {a b : Nat} (hb : b ≤ a) (ha : a < U64) : u64sub a b = a - b := by
  have hbU : b % U64 = b := Nat.mod_eq_of_lt (lt_of_le_of_lt hb ha)
  have h1 : a + (U64 - b % U64) = (a - b) + U64 := by
    rw [hbU]
    have : b ≤ U64 := le_of_lt (lt_of_le_of_lt hb ha)
    omega
  rw [u64sub, h1, Nat.add_mod_right, Nat.mod_eq_of_lt (by omega)]

theorem vanguardHeaderHashes_get (st : Store) (f n j : Nat) :
    (vanguardHeaderHashes st f n).get? j =
      if j < n then some (st.lookup (f + j)) else none := by
  unfold vanguardHeaderHashes
  rw [List.get?_map]
  by_cases h : j < n
  · rw [List.get?_range h]
    simp [h]
  · rw [List.get?_len_le (by simpa using Nat.le_of_not_lt h)]
    simp [h]

theorem pandoraHeaderHashes_get (st : Store) (f n j : Nat) :
    (pandoraHeaderHashes st f n).get? j =
      if j < n then some (st.lookup (f + j)) else none := by
  unfold pandoraHeaderHashes
  rw [List.get?_map]
  by_cases h : j < n
  · rw [List.get?_range h]
    simp [h]
  · rw [List.get?_len_le (by simpa using Nat.le_of_not_lt h)]
    simp [h]

/-! ### Stepping lemmas for the verification loop -/

theorem verifyLoop_nil_left (cfg : FailCfg) (pans : List (Option HeaderHash)) (slot : Nat)
    (acc : Loop1Out) : verifyLoop cfg [] pans slot acc = acc := rfl

theorem verifyLoop_nil_right (cfg : FailCfg) (van : Option HeaderHash)
    (vans : List (Option HeaderHash)) (slot : Nat) (acc : Loop1Out) :
    verifyLoop cfg (van :: vans) [] slot acc = acc := rfl

theorem verifyLoop_cons_nil_nil (cfg : FailCfg) (vans pans : List (Option HeaderHash))
    (slot : Nat) (acc : Loop1Out) :
    verifyLoop cfg (none :: vans) (none :: pans) slot acc =
      verifyLoop cfg vans pans (slot + 1)
        { acc with possibleSkippedPair := acc.possibleSkippedPair ++ [⟨slot, none, []⟩] } := rfl

theorem verifyLoop_cons_some_nil (cfg : FailCfg) (v : HeaderHash)
    (vans pans : List (Option HeaderHash)) (slot : Nat) (acc : Loop1Out) :
    verifyLoop cfg (some v :: vans) (none :: pans) slot acc =
      verifyLoop cfg vans pans (slot + 1)
        { acc with vanguardOrphans :=
            acc.vanguardOrphans ++ [(slot, ⟨v.headerHash, Status.Pending⟩)] } := rfl

theorem verifyLoop_cons_nil_some (cfg : FailCfg) (p : HeaderHash)
    (vans pans : List (Option HeaderHash)) (slot : Nat) (acc : Loop1Out) :
    verifyLoop cfg (none :: vans) (some p :: pans) slot acc =
      verifyLoop cfg vans pans (slot + 1)
        { acc with pandoraOrphans :=
            acc.pandoraOrphans ++ [(slot, ⟨p.headerHash, Status.Pending⟩)] } := rfl

theorem verifyLoop_noFail_cons_both (v p : HeaderHash) (vans pans : List (Option HeaderHash))
    (slot : Nat) (acc : Loop1Out) :
    verifyLoop noFail (some v :: vans) (some p :: pans) slot acc =
      verifyLoop noFail vans pans (slot + 1)
        { acc with
            state := ⟨acc.state.vanguard.save slot ⟨v.headerHash, Status.Verified⟩,
                      acc.state.pandora.save slot ⟨p.headerHash, Status.Verified⟩, slot⟩,
            vanguardErr := false, pandoraErr := false, realmErr := false,
            realmSaves := acc.realmSaves ++ [slot] } := rfl

/-! ### Invariants of the verification loop (error-free storage) -/

theorem verifyLoop_noFail_errs (vans pans : List (Option HeaderHash)) (slot : Nat)
    (acc : Loop1Out) (h1 : acc.vanguardErr = false) (h2 : acc.pandoraErr = false)
    (h3 : acc.realmErr = false) :
    (verifyLoop noFail vans pans slot acc).vanguardErr = false ∧
    (verifyLoop noFail vans pans slot acc).pandoraErr = false ∧
    (verifyLoop noFail vans pans slot acc).realmErr = false := by
  induction vans generalizing pans slot acc with
  | nil => rw [verifyLoop_nil_left]; exact ⟨h1, h2, h3⟩
  | cons van vans ih =>
    cases pans with
    | nil => rw [verifyLoop_nil_right]; exact ⟨h1, h2, h3⟩
    | cons pan pans =>
      cases van with
      | none =>
        cases pan with
        | none => rw [verifyLoop_cons_nil_nil]; exact ih _ _ _ h1 h2 h3
        | some p => rw [verifyLoop_cons_nil_some]; exact ih _ _ _ h1 h2 h3
      | some v =>
        cases pan with
        | none => rw [verifyLoop_cons_some_nil]; exact ih _ _ _ h1 h2 h3
        | some p => rw [verifyLoop_noFail_cons_both]; exact ih _ _ _ rfl rfl rfl

theorem verifyLoop_noFail_realm (vans pans : List (Option HeaderHash)) (slot : Nat)
    (acc : Loop1Out) :
    (verifyLoop noFail vans pans slot acc).state.realm = acc.state.realm ∨
    (slot ≤ (verifyLoop noFail vans pans slot acc).state.realm ∧
     (verifyLoop noFail vans pans slot acc).state.realm < slot + vans.length) := by
  induction vans generalizing pans slot acc with
  | nil => rw [verifyLoop_nil_left]; exact Or.inl rfl
  | cons van vans ih =>
    cases pans with
    | nil => rw [verifyLoop_nil_right]; exact Or.inl rfl
    | cons pan pans =>
      have hlen : (van :: vans).length = vans.length + 1 := rfl
      cases van with
      | none =>
        cases pan with
        | none =>
          rw [verifyLoop_cons_nil_nil]
          rcases ih pans (slot + 1) _ with h | ⟨ha, hb⟩
          · exact Or.inl h
          · exact Or.inr ⟨by omega, by rw [hlen]; omega⟩
        | some p =>
          rw [verifyLoop_cons_nil_some]
          rcases ih pans (slot + 1) _ with h | ⟨ha, hb⟩
          · exact Or.inl h
          · exact Or.inr ⟨by omega, by rw [hlen]; omega⟩
      | some v =>
        cases pan with
        | none =>
          rw [verifyLoop_cons_some_nil]
          rcases ih pans (slot + 1) _ with h | ⟨ha, hb⟩
          · exact Or.inl h
          · exact Or.inr ⟨by omega, by rw [hlen]; omega⟩
        | some p =>
          rw [verifyLoop_noFail_cons_both]
          rcases ih pans (slot + 1) _ with h | ⟨ha, hb⟩
          · refine Or.inr ⟨?_, ?_⟩
            · rw [h]
            · rw [h]; show slot < slot + (vans.length + 1); omega
          · exact Or.inr ⟨by omega, by rw [hlen]; omega⟩

theorem verifyLoop_noFail_van_frame (vans pans : List (Option HeaderHash)) (slot : Nat)
    (acc : Loop1Out) (s : Nat)
    (h : ∀ i v p, vans.get? i = some (some v) → pans.get? i = some (some p) → s ≠ slot + i) :
    (verifyLoop noFail vans pans slot acc).state.vanguard.lookup s =
      acc.state.vanguard.lookup s := by
  induction vans generalizing pans slot acc with
  | nil => rw [verifyLoop_nil_left]
  | cons van vans ih =>
    cases pans with
    | nil => rw [verifyLoop_nil_right]
    | cons pan pans =>
      cases van with
      | none =>
        cases pan with
        | none =>
          rw [verifyLoop_cons_nil_nil]
          exact ih pans (slot + 1) _ fun i v p hv hp => by
            have hh := h (i + 1) v p hv hp; omega
        | some p =>
          rw [verifyLoop_cons_nil_some]
          exact ih pans (slot + 1) _ fun i v p hv hp => by
            have hh := h (i + 1) v p hv hp; omega
      | some v =>
        cases pan with
        | none =>
          rw [verifyLoop_cons_some_nil]
          exact ih pans (slot + 1) _ fun i v' p hv hp => by
            have hh := h (i + 1) v' p hv hp; omega
        | some p =>
          rw [verifyLoop_noFail_cons_both]
          have hs : s ≠ slot := by have := h 0 v p rfl rfl; omega
          rw [ih pans (slot + 1) _ fun i v' p' hv hp => by
            have hh := h (i + 1) v' p' hv hp; omega]
          exact Store.lookup_save_of_ne _ _ (Ne.symm hs)

theorem verifyLoop_noFail_pan_frame (vans pans : List (Option HeaderHash)) (slot : Nat)
    (acc : Loop1Out) (s : Nat)
    (h : ∀ i v p, vans.get? i = some (some v) → pans.get? i = some (some p) → s ≠ slot + i) :
    (verifyLoop noFail vans pans slot acc).state.pandora.lookup s =
      acc.state.pandora.lookup s := by
  induction vans generalizing pans slot acc with
  | nil => rw [verifyLoop_nil_left]
  | cons van vans ih =>
    cases pans with
    | nil => rw [verifyLoop_nil_right]
    | cons pan pans =>
      cases van with
      | none =>
        cases pan with
        | none =>
          rw [verifyLoop_cons_nil_nil]
          exact ih pans (slot + 1) _ fun i v p hv hp => by
            have hh := h (i + 1) v p hv hp; omega
        | some p =>
          rw [verifyLoop_cons_nil_some]
          exact ih pans (slot + 1) _ fun i v p hv hp => by
            have hh := h (i + 1) v p hv hp; omega
      | some v =>
        cases pan with
        | none =>
          rw [verifyLoop_cons_some_nil]
          exact ih pans (slot + 1) _ fun i v' p hv hp => by
            have hh := h (i + 1) v' p hv hp; omega
        | some p =>
          rw [verifyLoop_noFail_cons_both]
          have hs : s ≠ slot := by have := h 0 v p rfl rfl; omega
          rw [ih pans (slot + 1) _ fun i v' p' hv hp => by
            have hh := h (i + 1) v' p' hv hp; omega]
          exact Store.lookup_save_of_ne _ _ (Ne.symm hs)

theorem verifyLoop_noFail_verified (vans pans : List (Option HeaderHash)) (slot : Nat)
    (acc : Loop1Out) (i : Nat) (v p : HeaderHash)
    (hv : vans.get? i = some (some v)) (hp : pans.get? i = some (some p)) :
    (verifyLoop noFail vans pans slot acc).state.vanguard.lookup (slot + i) =
        some ⟨v.headerHash, Status.Verified⟩ ∧
    (verifyLoop noFail vans pans slot acc).state.pandora.lookup (slot + i) =
        some ⟨p.headerHash, Status.Verified⟩ ∧
    slot + i ≤ (verifyLoop noFail vans pans slot acc).state.realm := by
  induction vans generalizing pans slot acc i with
  | nil => exact absurd hv (by simp)
  | cons van vans ih =>
    cases pans with
    | nil => exact absurd hp (by simp)
    | cons pan pans =>
      cases i with
      | zero =>
        have hv0 : van = some v := by simpa using hv
        have hp0 : pan = some p := by simpa using hp
        subst hv0; subst hp0
        rw [verifyLoop_noFail_cons_both]
        have hfr : ∀ i' v' p', vans.get? i' = some (some v') →
            pans.get? i' = some (some p') → slot ≠ (slot + 1) + i' := by
          intro i' v' p' _ _; omega
        constructor
        · rw [show slot + 0 = slot by omega, verifyLoop_noFail_van_frame _ _ _ _ _ hfr]
          exact Store.lookup_save_self _ _ _
        constructor
        · rw [show slot + 0 = slot by omega, verifyLoop_noFail_pan_frame _ _ _ _ _ hfr]
          exact Store.lookup_save_self _ _ _
        · rcases verifyLoop_noFail_realm vans pans (slot + 1) _ with h | ⟨ha, _⟩
          · rw [h]; show slot + 0 ≤ slot; omega
          · omega
      | succ i =>
        have hv' : vans.get? i = some (some v) := hv
        have hp' : pans.get? i = some (some p) := hp
        have hadd : slot + (i + 1) = (slot + 1) + i := by omega
        cases van with
        | none =>
          cases pan with
          | none =>
            rw [verifyLoop_cons_nil_nil, hadd]; exact ih pans (slot + 1) _ i hv' hp'
          | some q =>
            rw [verifyLoop_cons_nil_some, hadd]; exact ih pans (slot + 1) _ i hv' hp'
        | some u =>
          cases pan with
          | none =>
            rw [verifyLoop_cons_some_nil, hadd]; exact ih pans (slot + 1) _ i hv' hp'
          | some q =>
            rw [verifyLoop_noFail_cons_both, hadd]; exact ih pans (slot + 1) _ i hv' hp'

theorem verifyLoop_noFail_vanOrphans_mono (vans pans : List (Option HeaderHash)) (slot : Nat)
    (acc : Loop1Out) (x : Nat × HeaderHash) (hx : x ∈ acc.vanguardOrphans) :
    x ∈ (verifyLoop noFail vans pans slot acc).vanguardOrphans := by
  induction vans generalizing pans slot acc with
  | nil => rw [verifyLoop_nil_left]; exact hx
  | cons van vans ih =>
    cases pans with
    | nil => rw [verifyLoop_nil_right]; exact hx
    | cons pan pans =>
      cases van with
      | none =>
        cases pan with
        | none => rw [verifyLoop_cons_nil_nil]; exact ih _ _ _ hx
        | some p => rw [verifyLoop_cons_nil_some]; exact ih _ _ _ hx
      | some v =>
        cases pan with
        | none =>
          rw [verifyLoop_cons_some_nil]
          exact ih _ _ _ (List.mem_append_left _ hx)
        | some p => rw [verifyLoop_noFail_cons_both]; exact ih _ _ _ hx

theorem verifyLoop_noFail_panOrphans_mono (vans pans : List (Option HeaderHash)) (slot : Nat)
    (acc : Loop1Out) (x : Nat × HeaderHash) (hx : x ∈ acc.pandoraOrphans) :
    x ∈ (verifyLoop noFail vans pans slot acc).pandoraOrphans := by
  induction vans generalizing pans slot acc with
  | nil => rw [verifyLoop_nil_left]; exact hx
  | cons van vans ih =>
    cases pans with
    | nil => rw [verifyLoop_nil_right]; exact hx
    | cons pan pans =>
      cases van with
      | none =>
        cases pan with
        | none => rw [verifyLoop_cons_nil_nil]; exact ih _ _ _ hx
        | some p =>
          rw [verifyLoop_cons_nil_some]
          exact ih _ _ _ (List.mem_append_left _ hx)
      | some v =>
        cases pan with
        | none => rw [verifyLoop_cons_some_nil]; exact ih _ _ _ hx
        | some p => rw [verifyLoop_noFail_cons_both]; exact ih _ _ _ hx

theorem verifyLoop_noFail_vanOrphan_mem (vans pans : List (Option HeaderHash)) (slot : Nat)
    (acc : Loop1Out) (i : Nat) (v : HeaderHash)
    (hv : vans.get? i = some (some v)) (hp : pans.get? i = some none) :
    (slot + i, (⟨v.headerHash, Status.Pending⟩ : HeaderHash)) ∈
      (verifyLoop noFail vans pans slot acc).vanguardOrphans := by
  induction vans generalizing pans slot acc i with
  | nil => exact absurd hv (by simp)
  | cons van vans ih =>
    cases pans with
    | nil => exact absurd hp (by simp)
    | cons pan pans =>
      cases i with
      | zero =>
        have hv0 : van = some v := by simpa using hv
        have hp0 : pan = none := by simpa using hp
        subst hv0; subst hp0
        rw [verifyLoop_cons_some_nil]
        refine verifyLoop_noFail_vanOrphans_mono _ _ _ _ _ ?_
        rw [show slot + 0 = slot by omega]
        exact List.mem_append_right _ (List.mem_singleton_self _)
      | succ i =>
        have hv' : vans.get? i = some (some v) := hv
        have hp' : pans.get? i = some none := hp
        have hadd : slot + (i + 1) = (slot + 1) + i := by omega
        cases van with
        | none =>
          cases pan with
          | none => rw [verifyLoop_cons_nil_nil, hadd]; exact ih pans (slot + 1) _ i hv' hp'
          | some q => rw [verifyLoop_cons_nil_some, hadd]; exact ih pans (slot + 1) _ i hv' hp'
        | some u =>
          cases pan with
          | none => rw [verifyLoop_cons_some_nil, hadd]; exact ih pans (slot + 1) _ i hv' hp'
          | some q => rw [verifyLoop_noFail_cons_both, hadd]; exact ih pans (slot + 1) _ i hv' hp'

theorem verifyLoop_noFail_panOrphan_mem (vans pans : List (Option HeaderHash)) (slot : Nat)
    (acc : Loop1Out) (i : Nat) (p : HeaderHash)
    (hv : vans.get? i = some none) (hp : pans.get? i = some (some p)) :
    (slot + i, (⟨p.headerHash, Status.Pending⟩ : HeaderHash)) ∈
      (verifyLoop noFail vans pans slot acc).pandoraOrphans := by
  induction vans generalizing pans slot acc i with
  | nil => exact absurd hv (by simp)
  | cons van vans ih =>
    cases pans with
    | nil => exact absurd hp (by simp)
    | cons pan pans =>
      cases i with
      | zero =>
        have hv0 : van = none := by simpa using hv
        have hp0 : pan = some p := by simpa using hp
        subst hv0; subst hp0
        rw [verifyLoop_cons_nil_some]
        refine verifyLoop_noFail_panOrphans_mono _ _ _ _ _ ?_
        rw [show slot + 0 = slot by omega]
        exact List.mem_append_right _ (List.mem_singleton_self _)
      | succ i =>
        have hv' : vans.get? i = some none := hv
        have hp' : pans.get? i = some (some p) := hp
        have hadd : slot + (i + 1) = (slot + 1) + i := by omega
        cases van with
        | none =>
          cases pan with
          | none => rw [verifyLoop_cons_nil_nil, hadd]; exact ih pans (slot + 1) _ i hv' hp'
          | some q => rw [verifyLoop_cons_nil_some, hadd]; exact ih pans (slot + 1) _ i hv' hp'
        | some u =>
          cases pan with
          | none => rw [verifyLoop_cons_some_nil, hadd]; exact ih pans (slot + 1) _ i hv' hp'
          | some q => rw [verifyLoop_noFail_cons_both, hadd]; exact ih pans (slot + 1) _ i hv' hp'

theorem verifyLoop_noFail_vanOrphans_char (vans pans : List (Option HeaderHash)) (slot : Nat)
    (acc : Loop1Out) (x : Nat × HeaderHash)
    (hx : x ∈ (verifyLoop noFail vans pans slot acc).vanguardOrphans) :
    x ∈ acc.vanguardOrphans ∨
    ∃ i v, x = (slot + i, (⟨v.headerHash, Status.Pending⟩ : HeaderHash)) ∧
      vans.get? i = some (some v) ∧ pans.get? i = some none := by
  induction vans generalizing pans slot acc with
  | nil => rw [verifyLoop_nil_left] at hx; exact Or.inl hx
  | cons van vans ih =>
    cases pans with
    | nil => rw [verifyLoop_nil_right] at hx; exact Or.inl hx
    | cons pan pans =>
      have hshift : ∀ y, y ∈ acc.vanguardOrphans ∨
          (∃ i v, y = ((slot + 1) + i, (⟨v.headerHash, Status.Pending⟩ : HeaderHash)) ∧
            vans.get? i = some (some v) ∧ pans.get? i = some none) →
          y ∈ acc.vanguardOrphans ∨
          ∃ i v, y = (slot + i, (⟨v.headerHash, Status.Pending⟩ : HeaderHash)) ∧
            (van :: vans).get? i = some (some v) ∧ (pan :: pans).get? i = some none := by
        intro y hy
        rcases hy with hy | ⟨i, v, rfl, hv, hp⟩
        · exact Or.inl hy
        · exact Or.inr ⟨i + 1, v, by rw [show slot + (i + 1) = (slot + 1) + i by omega], hv, hp⟩
      cases van with
      | none =>
        cases pan with
        | none =>
          rw [verifyLoop_cons_nil_nil] at hx
          have hih := ih pans (slot + 1) _ hx
          exact hshift x hih
        | some p =>
          rw [verifyLoop_cons_nil_some] at hx
          have hih := ih pans (slot + 1) _ hx
          exact hshift x hih
      | some v =>
        cases pan with
        | none =>
          rw [verifyLoop_cons_some_nil] at hx
          rcases ih pans (slot + 1) _ hx with hy | hy
          · rcases List.mem_append.1 hy with hy | hy
            · exact Or.inl hy
            · refine Or.inr ⟨0, v, ?_, rfl, rfl⟩
              rw [show slot + 0 = slot by omega]
              simpa using hy
          · exact hshift x (Or.inr hy)
        | some p =>
          rw [verifyLoop_noFail_cons_both] at hx
          have hih := ih pans (slot + 1) _ hx
          exact hshift x hih

theorem verifyLoop_noFail_panOrphans_char (vans pans : List (Option HeaderHash)) (slot : Nat)
    (acc : Loop1Out) (x : Nat × HeaderHash)
    (hx : x ∈ (verifyLoop noFail vans pans slot acc).pandoraOrphans) :
    x ∈ acc.pandoraOrphans ∨
    ∃ i p, x = (slot + i, (⟨p.headerHash, Status.Pending⟩ : HeaderHash)) ∧
      vans.get? i = some none ∧ pans.get? i = some (some p) := by
  induction vans generalizing pans slot acc with
  | nil => rw [verifyLoop_nil_left] at hx; exact Or.inl hx
  | cons van vans ih =>
    cases pans with
    | nil => rw [verifyLoop_nil_right] at hx; exact Or.inl hx
    | cons pan pans =>
      have hshift : ∀ y, y ∈ acc.pandoraOrphans ∨
          (∃ i p, y = ((slot + 1) + i, (⟨p.headerHash, Status.Pending⟩ : HeaderHash)) ∧
            vans.get? i = some none ∧ pans.get? i = some (some p)) →
          y ∈ acc.pandoraOrphans ∨
          ∃ i p, y = (slot + i, (⟨p.headerHash, Status.Pending⟩ : HeaderHash)) ∧
            (van :: vans).get? i = some none ∧ (pan :: pans).get? i = some (some p) := by
        intro y hy
        rcases hy with hy | ⟨i, p, rfl, hv, hp⟩
        · exact Or.inl hy
        · exact Or.inr ⟨i + 1, p, by rw [show slot + (i + 1) = (slot + 1) + i by omega], hv, hp⟩
      cases van with
      | none =>
        cases pan with
        | none =>
          rw [verifyLoop_cons_nil_nil] at hx
          have hih := ih pans (slot + 1) _ hx
          exact hshift x hih
        | some p =>
          rw [verifyLoop_cons_nil_some] at hx
          rcases ih pans (slot + 1) _ hx with hy | hy
          · rcases List.mem_append.1 hy with hy | hy
            · exact Or.inl hy
            · refine Or.inr ⟨0, p, ?_, rfl, rfl⟩
              rw [show slot + 0 = slot by omega]
              simpa using hy
          · exact hshift x (Or.inr hy)
      | some v =>
        cases pan with
        | none =>
          rw [verifyLoop_cons_some_nil] at hx
          have hih := ih pans (slot + 1) _ hx
          exact hshift x hih
        | some p =>
          rw [verifyLoop_noFail_cons_both] at hx
          have hih := ih pans (slot + 1) _ hx
          exact hshift x hih

theorem verifyLoop_noFail_pairs_mono (vans pans : List (Option HeaderHash)) (slot : Nat)
    (acc : Loop1Out) (x : RealmPair) (hx : x ∈ acc.possibleSkippedPair) :
    x ∈ (verifyLoop noFail vans pans slot acc).possibleSkippedPair := by
  induction vans generalizing pans slot acc with
  | nil => rw [verifyLoop_nil_left]; exact hx
  | cons van vans ih =>
    cases pans with
    | nil => rw [verifyLoop_nil_right]; exact hx
    | cons pan pans =>
      cases van with
      | none =>
        cases pan with
        | none =>
          rw [verifyLoop_cons_nil_nil]
          exact ih _ _ _ (List.mem_append_left _ hx)
        | some p => rw [verifyLoop_cons_nil_some]; exact ih _ _ _ hx
      | some v =>
        cases pan with
        | none => rw [verifyLoop_cons_some_nil]; exact ih _ _ _ hx
        | some p => rw [verifyLoop_noFail_cons_both]; exact ih _ _ _ hx

theorem verifyLoop_noFail_pair_mem (vans pans : List (Option HeaderHash)) (slot : Nat)
    (acc : Loop1Out) (i : Nat)
    (hv : vans.get? i = some none) (hp : pans.get? i = some none) :
    (⟨slot + i, none, []⟩ : RealmPair) ∈
      (verifyLoop noFail vans pans slot acc).possibleSkippedPair := by
  induction vans generalizing pans slot acc i with
  | nil => exact absurd hv (by simp)
  | cons van vans ih =>
    cases pans with
    | nil => exact absurd hp (by simp)
    | cons pan pans =>
      cases i with
      | zero =>
        have hv0 : van = none := by simpa using hv
        have hp0 : pan = none := by simpa using hp
        subst hv0; subst hp0
        rw [verifyLoop_cons_nil_nil]
        refine verifyLoop_noFail_pairs_mono _ _ _ _ _ ?_
        rw [show slot + 0 = slot by omega]
        exact List.mem_append_right _ (List.mem_singleton_self _)
      | succ i =>
        have hv' : vans.get? i = some none := hv
        have hp' : pans.get? i = some none := hp
        have hadd : slot + (i + 1) = (slot + 1) + i := by omega
        cases van with
        | none =>
          cases pan with
          | none => rw [verifyLoop_cons_nil_nil, hadd]; exact ih pans (slot + 1) _ i hv' hp'
          | some q => rw [verifyLoop_cons_nil_some, hadd]; exact ih pans (slot + 1) _ i hv' hp'
        | some u =>
          cases pan with
          | none => rw [verifyLoop_cons_some_nil, hadd]; exact ih pans (slot + 1) _ i hv' hp'
          | some q => rw [verifyLoop_noFail_cons_both, hadd]; exact ih pans (slot + 1) _ i hv' hp'

theorem verifyLoop_noFail_pairs_char (vans pans : List (Option HeaderHash)) (slot : Nat)
    (acc : Loop1Out) (x : RealmPair)
    (hx : x ∈ (verifyLoop noFail vans pans slot acc).possibleSkippedPair) :
    x ∈ acc.possibleSkippedPair ∨
    ∃ i, x = (⟨slot + i, none, []⟩ : RealmPair) ∧
      vans.get? i = some none ∧ pans.get? i = some none := by
  induction vans generalizing pans slot acc with
  | nil => rw [verifyLoop_nil_left] at hx; exact Or.inl hx
  | cons van vans ih =>
    cases pans with
    | nil => rw [verifyLoop_nil_right] at hx; exact Or.inl hx
    | cons pan pans =>
      have hshift : ∀ y, y ∈ acc.possibleSkippedPair ∨
          (∃ i, y = (⟨(slot + 1) + i, none, []⟩ : RealmPair) ∧
            vans.get? i = some none ∧ pans.get? i = some none) →
          y ∈ acc.possibleSkippedPair ∨
          ∃ i, y = (⟨slot + i, none, []⟩ : RealmPair) ∧
            (van :: vans).get? i = some none ∧ (pan :: pans).get? i = some none := by
        intro y hy
        rcases hy with hy | ⟨i, rfl, hv, hp⟩
        · exact Or.inl hy
        · exact Or.inr ⟨i + 1, by rw [show slot + (i + 1) = (slot + 1) + i by omega], hv, hp⟩
      cases van with
      | none =>
        cases pan with
        | none =>
          rw [verifyLoop_cons_nil_nil] at hx
          rcases ih pans (slot + 1) _ hx with hy | hy
          · rcases List.mem_append.1 hy with hy | hy
            · exact Or.inl hy
            · refine Or.inr ⟨0, ?_, rfl, rfl⟩
              rw [show slot + 0 = slot by omega]
              simpa using hy
          · exact hshift x (Or.inr hy)
        | some p =>
          rw [verifyLoop_cons_nil_some] at hx
          have hih := ih pans (slot + 1) _ hx
          exact hshift x hih
      | some v =>
        cases pan with
        | none =>
          rw [verifyLoop_cons_some_nil] at hx
          have hih := ih pans (slot + 1) _ hx
          exact hshift x hih
        | some p =>
          rw [verifyLoop_noFail_cons_both] at hx
          have hih := ih pans (slot + 1) _ hx
          exact hshift x hih

/-! ### Lemmas about orphan finalization -/

theorem skipOrphansPan_noFail_lookup (L : List (Nat × HeaderHash)) (st : DBState) (e : Bool)
    (s : Nat) :
    (skipOrphansPan noFail L st e).1.pandora.lookup s =
      if s ∈ L.map Prod.fst then some ⟨EmptyHash, Status.Skipped⟩
      else st.pandora.lookup s := by
  induction L generalizing st e with
  | nil => simp [skipOrphansPan]
  | cons kh L ih =>
    obtain ⟨k, h⟩ := kh
    rw [show skipOrphansPan noFail ((k, h) :: L) st e =
      skipOrphansPan noFail L { st with pandora := st.pandora.save k ⟨EmptyHash, Status.Skipped⟩ }
        false from rfl]
    rw [ih]
    by_cases hmem : s ∈ L.map Prod.fst
    · simp [hmem]
    · by_cases hk : s = k
      · subst hk
        simp [hmem, Store.lookup_save_self]
      · have : (st.pandora.save k ⟨EmptyHash, Status.Skipped⟩).lookup s = st.pandora.lookup s :=
          Store.lookup_save_of_ne _ _ fun hkk => hk (hkk.symm)
        simp [hmem, hk, this]

theorem skipOrphansPan_frame (cfg : FailCfg) (L : List (Nat × HeaderHash)) (st : DBState)
    (e : Bool) :
    (skipOrphansPan cfg L st e).1.vanguard = st.vanguard ∧
    (skipOrphansPan cfg L st e).1.realm = st.realm := by
  induction L generalizing st e with
  | nil => exact ⟨rfl, rfl⟩
  | cons kh L ih =>
    obtain ⟨k, h⟩ := kh
    show (skipOrphansPan cfg L (savePandoraHeaderHash cfg st k _).1 _).1.vanguard = _ ∧
         (skipOrphansPan cfg L (savePandoraHeaderHash cfg st k _).1 _).1.realm = _
    rcases ih (savePandoraHeaderHash cfg st k ⟨EmptyHash, Status.Skipped⟩).1
      (savePandoraHeaderHash cfg st k ⟨EmptyHash, Status.Skipped⟩).2 with ⟨h1, h2⟩
    rw [h1, h2]
    unfold savePandoraHeaderHash
    by_cases hf : cfg.pandoraFailAt k = true <;> simp [hf]

theorem skipOrphansPan_noFail_err (L : List (Nat × HeaderHash)) (st : DBState) :
    (skipOrphansPan noFail L st false).2 = false := by
  induction L generalizing st with
  | nil => rfl
  | cons kh L ih =>
    obtain ⟨k, h⟩ := kh
    exact ih _

theorem skipOrphansVan_noFail_lookup (L : List (Nat × HeaderHash)) (st : DBState) (e : Bool)
    (s : Nat) :
    (skipOrphansVan noFail L st e).1.vanguard.lookup s =
      if s ∈ L.map Prod.fst then some ⟨EmptyHash, Status.Skipped⟩
      else st.vanguard.lookup s := by
  induction L generalizing st e with
  | nil => simp [skipOrphansVan]
  | cons kh L ih =>
    obtain ⟨k, h⟩ := kh
    rw [show skipOrphansVan noFail ((k, h) :: L) st e =
      skipOrphansVan noFail L { st with vanguard := st.vanguard.save k ⟨EmptyHash, Status.Skipped⟩ }
        false from rfl]
    rw [ih]
    by_cases hmem : s ∈ L.map Prod.fst
    · simp [hmem]
    · by_cases hk : s = k
      · subst hk
        simp [hmem, Store.lookup_save_self]
      · have : (st.vanguard.save k ⟨EmptyHash, Status.Skipped⟩).lookup s = st.vanguard.lookup s :=
          Store.lookup_save_of_ne _ _ fun hkk => hk (hkk.symm)
        simp [hmem, hk, this]

theorem skipOrphansVan_frame (cfg : FailCfg) (L : List (Nat × HeaderHash)) (st : DBState)
    (e : Bool) :
    (skipOrphansVan cfg L st e).1.pandora = st.pandora ∧
    (skipOrphansVan cfg L st e).1.realm = st.realm := by
  induction L generalizing st e with
  | nil => exact ⟨rfl, rfl⟩
  | cons kh L ih =>
    obtain ⟨k, h⟩ := kh
    show (skipOrphansVan cfg L (saveVanguardHeaderHash cfg st k _).1 _).1.pandora = _ ∧
         (skipOrphansVan cfg L (saveVanguardHeaderHash cfg st k _).1 _).1.realm = _
    rcases ih (saveVanguardHeaderHash cfg st k ⟨EmptyHash, Status.Skipped⟩).1
      (saveVanguardHeaderHash cfg st k ⟨EmptyHash, Status.Skipped⟩).2 with ⟨h1, h2⟩
    rw [h1, h2]
    unfold saveVanguardHeaderHash
    by_cases hf : cfg.vanguardFailAt k = true <;> simp [hf]

theorem skipOrphansVan_noFail_err (L : List (Nat × HeaderHash)) (st : DBState) :
    (skipOrphansVan noFail L st false).2 = false := by
  induction L generalizing st with
  | nil => rfl
  | cons kh L ih =>
    obtain ⟨k, h⟩ := kh
    exact ih _

/-! ### Lemmas about the possible-skipped finalization -/

theorem pairsPhase_cons_gt (cfg : FailCfg) (latest : Nat) (pair : RealmPair)
    (rest : List RealmPair) (st : DBState) (pend : List RealmPair)
    (h : pair.slot > latest) :
    pairsPhase cfg latest (pair :: rest) st pend =
      pairsPhase cfg latest rest st (pend ++ [pair]) := by
  rw [pairsPhase, if_pos h]

theorem pairsPhase_noFail_cons_le (latest : Nat) (pair : RealmPair)
    (rest : List RealmPair) (st : DBState) (pend : List RealmPair)
    (h : ¬ pair.slot > latest) :
    pairsPhase noFail latest (pair :: rest) st pend =
      pairsPhase noFail latest rest
        ⟨st.vanguard.save pair.slot ⟨EmptyHash, Status.Skipped⟩,
         st.pandora.save pair.slot ⟨EmptyHash, Status.Skipped⟩, st.realm⟩ pend := by
  rw [pairsPhase, if_neg h]
  rfl

theorem pairsPhase_noFail_errs (latest : Nat) (pairs : List RealmPair) (st : DBState)
    (pend : List RealmPair) :
    (pairsPhase noFail latest pairs st pend).vanguardErr = false ∧
    (pairsPhase noFail latest pairs st pend).pandoraErr = false := by
  induction pairs generalizing st pend with
  | nil => exact ⟨rfl, rfl⟩
  | cons pair rest ih =>
    by_cases h : pair.slot > latest
    · rw [pairsPhase_cons_gt _ _ _ _ _ _ h]; exact ih _ _
    · rw [pairsPhase_noFail_cons_le _ _ _ _ _ h]; exact ih _ _

theorem pairsPhase_noFail_realm (latest : Nat) (pairs : List RealmPair) (st : DBState)
    (pend : List RealmPair) :
    (pairsPhase noFail latest pairs st pend).state.realm = st.realm := by
  induction pairs generalizing st pend with
  | nil => rfl
  | cons pair rest ih =>
    by_cases h : pair.slot > latest
    · rw [pairsPhase_cons_gt _ _ _ _ _ _ h]; exact ih _ _
    · rw [pairsPhase_noFail_cons_le _ _ _ _ _ h]; exact ih _ _

theorem pairsPhase_noFail_van_lookup (latest : Nat) (pairs : List RealmPair) (st : DBState)
    (pend : List RealmPair) (s : Nat) :
    (pairsPhase noFail latest pairs st pend).state.vanguard.lookup s =
      if s ∈ ((pairs.filter fun pr => decide (pr.slot ≤ latest)).map RealmPair.slot) then
        some ⟨EmptyHash, Status.Skipped⟩
      else st.vanguard.lookup s := by
  induction pairs generalizing st pend with
  | nil => simp [pairsPhase]
  | cons pair rest ih =>
    by_cases h : pair.slot > latest
    · rw [pairsPhase_cons_gt _ _ _ _ _ _ h, ih]
      have hd : decide (pair.slot ≤ latest) = false := by simpa using h
      rw [List.filter_cons, hd]
      simp
    · rw [pairsPhase_noFail_cons_le _ _ _ _ _ h, ih]
      have hd : decide (pair.slot ≤ latest) = true := by simpa using Nat.le_of_not_lt h
      rw [List.filter_cons, hd]
      by_cases hmem : s ∈ (rest.filter fun pr => decide (pr.slot ≤ latest)).map RealmPair.slot
      · simp [hmem]
      · by_cases hk : s = pair.slot
        · subst hk
          simp [hmem, Store.lookup_save_self]
        · have hlk : (st.vanguard.save pair.slot ⟨EmptyHash, Status.Skipped⟩).lookup s =
              st.vanguard.lookup s :=
            Store.lookup_save_of_ne _ _ fun hkk => hk (hkk.symm)
          simp [hmem, hk, hlk]

theorem pairsPhase_noFail_pan_lookup (latest : Nat) (pairs : List RealmPair) (st : DBState)
    (pend : List RealmPair) (s : Nat) :
    (pairsPhase noFail latest pairs st pend).state.pandora.lookup s =
      if s ∈ ((pairs.filter fun pr => decide (pr.slot ≤ latest)).map RealmPair.slot) then
        some ⟨EmptyHash, Status.Skipped⟩
      else st.pandora.lookup s := by
  induction pairs generalizing st pend with
  | nil => simp [pairsPhase]
  | cons pair rest ih =>
    by_cases h : pair.slot > latest
    · rw [pairsPhase_cons_gt _ _ _ _ _ _ h, ih]
      have hd : decide (pair.slot ≤ latest) = false := by simpa using h
      rw [List.filter_cons, hd]
      simp
    · rw [pairsPhase_noFail_cons_le _ _ _ _ _ h, ih]
      have hd : decide (pair.slot ≤ latest) = true := by simpa using Nat.le_of_not_lt h
      rw [List.filter_cons, hd]
      by_cases hmem : s ∈ (rest.filter fun pr => decide (pr.slot ≤ latest)).map RealmPair.slot
      · simp [hmem]
      · by_cases hk : s = pair.slot
        · subst hk
          simp [hmem, Store.lookup_save_self]
        · have hlk : (st.pandora.save pair.slot ⟨EmptyHash, Status.Skipped⟩).lookup s =
              st.pandora.lookup s :=
            Store.lookup_save_of_ne _ _ fun hkk => hk (hkk.symm)
          simp [hmem, hk, hlk]

theorem pairsPhase_noFail_pend_char (latest : Nat) (pairs : List RealmPair) (st : DBState)
    (pend : List RealmPair) (x : RealmPair)
    (hx : x ∈ (pairsPhase noFail latest pairs st pend).pendingPairs) :
    x ∈ pend ∨ x ∈ pairs := by
  induction pairs generalizing st pend with
  | nil => exact Or.inl hx
  | cons pair rest ih =>
    by_cases h : pair.slot > latest
    · rw [pairsPhase_cons_gt _ _ _ _ _ _ h] at hx
      rcases ih _ _ hx with hy | hy
      · rcases List.mem_append.1 hy with hy | hy
        · exact Or.inl hy
        · exact Or.inr (by simp at hy; simp [hy])
      · exact Or.inr (List.mem_cons_of_mem _ hy)
    · rw [pairsPhase_noFail_cons_le _ _ _ _ _ h] at hx
      rcases ih _ _ hx with hy | hy
      · exact Or.inl hy
      · exact Or.inr (List.mem_cons_of_mem _ hy)

/-! ### Lemmas about the pending-pairs pass -/

theorem pendingPhase_noop (cfg : FailCfg) (pairs : List RealmPair) (st : DBState)
    (vE pE : Bool) (h : ∀ x ∈ pairs, x.vanguardHash = none ∧ x.pandoraHashes = []) :
    pendingPhase cfg pairs st vE pE = ⟨st, vE, pE⟩ := by
  induction pairs generalizing st vE pE with
  | nil => rfl
  | cons pair rest ih =>
    obtain ⟨ps, pv, pp⟩ := pair
    obtain ⟨hv, hp⟩ := h _ (List.mem_cons_self _ _)
    dsimp at hv hp
    subst hv; subst hp
    exact ih _ _ _ fun x hx => h x (List.mem_cons_of_mem _ hx)

theorem pendingPhase_noFail_errs (pairs : List RealmPair) (st : DBState) :
    (pendingPhase noFail pairs st false false).vanguardErr = false ∧
    (pendingPhase noFail pairs st false false).pandoraErr = false := by
  induction pairs generalizing st with
  | nil => exact ⟨rfl, rfl⟩
  | cons pair rest ih =>
    obtain ⟨ps, pv, pp⟩ := pair
    cases pv with
    | none =>
      cases pp with
      | nil => exact ih _
      | cons q pp =>
        cases q with
        | none => exact ih _
        | some ph => exact ih _
    | some vh =>
      cases pp with
      | nil => exact ih _
      | cons q pp =>
        cases q with
        | none => exact ih _
        | some ph => exact ih _

theorem pendingPhase_noFail_realm (pairs : List RealmPair) (st : DBState) (vE pE : Bool) :
    (pendingPhase noFail pairs st vE pE).state.realm = st.realm := by
  induction pairs generalizing st vE pE with
  | nil => rfl
  | cons pair rest ih =>
    obtain ⟨ps, pv, pp⟩ := pair
    cases pv with
    | none =>
      cases pp with
      | nil => exact ih _ _ _
      | cons q pp =>
        cases q with
        | none => exact ih _ _ _
        | some ph => exact ih _ _ _
    | some vh =>
      cases pp with
      | nil => exact ih _ _ _
      | cons q pp =>
        cases q with
        | none => exact ih _ _ _
        | some ph => exact ih _ _ _

/-! ### Lemmas about gap filling -/

theorem gapFillVan_cons_some (cfg : FailCfg) (f l : Nat) (h : HeaderHash)
    (rest : List (Option HeaderHash)) (idx : Nat) (st : DBState) (e : Bool) :
    gapFillVan cfg f l (some h :: rest) idx st e = gapFillVan cfg f l rest (idx + 1) st e := rfl

theorem gapFillVan_cons_none_gt (cfg : FailCfg) (f l : Nat)
    (rest : List (Option HeaderHash)) (idx : Nat) (st : DBState) (e : Bool)
    (h : f + idx > l) :
    gapFillVan cfg f l (none :: rest) idx st e = gapFillVan cfg f l rest (idx + 1) st e := by
  rw [gapFillVan, if_pos h]

theorem gapFillVan_noFail_cons_none_le (f l : Nat)
    (rest : List (Option HeaderHash)) (idx : Nat) (st : DBState) (e : Bool)
    (h : ¬ f + idx > l) :
    gapFillVan noFail f l (none :: rest) idx st e =
      gapFillVan noFail f l rest (idx + 1)
        { st with vanguard := st.vanguard.save (f + idx) ⟨EmptyHash, Status.Skipped⟩ }
        false := by
  rw [gapFillVan, if_neg h]
  rfl

theorem gapFillPan_cons_some (cfg : FailCfg) (f l : Nat) (h : HeaderHash)
    (rest : List (Option HeaderHash)) (idx : Nat) (st : DBState) (e : Bool) :
    gapFillPan cfg f l (some h :: rest) idx st e = gapFillPan cfg f l rest (idx + 1) st e := rfl

theorem gapFillPan_cons_none_gt (cfg : FailCfg) (f l : Nat)
    (rest : List (Option HeaderHash)) (idx : Nat) (st : DBState) (e : Bool)
    (h : f + idx > l) :
    gapFillPan cfg f l (none :: rest) idx st e = gapFillPan cfg f l rest (idx + 1) st e := by
  rw [gapFillPan, if_pos h]

theorem gapFillPan_noFail_cons_none_le (f l : Nat)
    (rest : List (Option HeaderHash)) (idx : Nat) (st : DBState) (e : Bool)
    (h : ¬ f + idx > l) :
    gapFillPan noFail f l (none :: rest) idx st e =
      gapFillPan noFail f l rest (idx + 1)
        { st with pandora := st.pandora.save (f + idx) ⟨EmptyHash, Status.Skipped⟩ }
        false := by
  rw [gapFillPan, if_neg h]
  rfl

theorem gapFillVan_noFail_err (f l : Nat) (batch : List (Option HeaderHash)) (idx : Nat)
    (st : DBState) : (gapFillVan noFail f l batch idx st false).2 = false := by
  induction batch generalizing idx st with
  | nil => rfl
  | cons o rest ih =>
    cases o with
    | some h => rw [gapFillVan_cons_some]; exact ih _ _
    | none =>
      by_cases hgt : f + idx > l
      · rw [gapFillVan_cons_none_gt _ _ _ _ _ _ _ hgt]; exact ih _ _
      · rw [gapFillVan_noFail_cons_none_le _ _ _ _ _ _ hgt]; exact ih _ _

theorem gapFillPan_noFail_err (f l : Nat) (batch : List (Option HeaderHash)) (idx : Nat)
    (st : DBState) : (gapFillPan noFail f l batch idx st false).2 = false := by
  induction batch generalizing idx st with
  | nil => rfl
  | cons o rest ih =>
    cases o with
    | some h => rw [gapFillPan_cons_some]; exact ih _ _
    | none =>
      by_cases hgt : f + idx > l
      · rw [gapFillPan_cons_none_gt _ _ _ _ _ _ _ hgt]; exact ih _ _
      · rw [gapFillPan_noFail_cons_none_le _ _ _ _ _ _ hgt]; exact ih _ _

theorem gapFillVan_noFail_frame (f l : Nat) (batch : List (Option HeaderHash)) (idx : Nat)
    (st : DBState) (e : Bool) (s : Nat)
    (h : ∀ j, batch.get? j = some none → f + (idx + j) ≤ l → s ≠ f + (idx + j)) :
    (gapFillVan noFail f l batch idx st e).1.vanguard.lookup s = st.vanguard.lookup s := by
  induction batch generalizing idx st e with
  | nil => rfl
  | cons o rest ih =>
    cases o with
    | some hh =>
      rw [gapFillVan_cons_some]
      exact ih _ _ _ fun j hj hle => by
        have := h (j + 1) hj (by omega); omega
    | none =>
      by_cases hgt : f + idx > l
      · rw [gapFillVan_cons_none_gt _ _ _ _ _ _ _ hgt]
        exact ih _ _ _ fun j hj hle => by
          have := h (j + 1) hj (by omega); omega
      · rw [gapFillVan_noFail_cons_none_le _ _ _ _ _ _ hgt]
        have hs : s ≠ f + idx := by
          have := h 0 rfl (by omega); omega
        rw [ih _ _ _ fun j hj hle => by
          have := h (j + 1) hj (by omega); omega]
        exact Store.lookup_save_of_ne _ _ (Ne.symm hs)

theorem gapFillPan_noFail_frame (f l : Nat) (batch : List (Option HeaderHash)) (idx : Nat)
    (st : DBState) (e : Bool) (s : Nat)
    (h : ∀ j, batch.get? j = some none → f + (idx + j) ≤ l → s ≠ f + (idx + j)) :
    (gapFillPan noFail f l batch idx st e).1.pandora.lookup s = st.pandora.lookup s := by
  induction batch generalizing idx st e with
  | nil => rfl
  | cons o rest ih =>
    cases o with
    | some hh =>
      rw [gapFillPan_cons_some]
      exact ih _ _ _ fun j hj hle => by
        have := h (j + 1) hj (by omega); omega
    | none =>
      by_cases hgt : f + idx > l
      · rw [gapFillPan_cons_none_gt _ _ _ _ _ _ _ hgt]
        exact ih _ _ _ fun j hj hle => by
          have := h (j + 1) hj (by omega); omega
      · rw [gapFillPan_noFail_cons_none_le _ _ _ _ _ _ hgt]
        have hs : s ≠ f + idx := by
          have := h 0 rfl (by omega); omega
        rw [ih _ _ _ fun j hj hle => by
          have := h (j + 1) hj (by omega); omega]
        exact Store.lookup_save_of_ne _ _ (Ne.symm hs)

theorem gapFillVan_noFail_write (f l : Nat) (batch : List (Option HeaderHash)) (idx : Nat)
    (st : DBState) (e : Bool) (j : Nat)
    (hj : batch.get? j = some none) (hle : f + (idx + j) ≤ l) :
    (gapFillVan noFail f l batch idx st e).1.vanguard.lookup (f + (idx + j)) =
      some ⟨EmptyHash, Status.Skipped⟩ := by
  induction batch generalizing idx st e j with
  | nil => exact absurd hj (by simp)
  | cons o rest ih =>
    cases j with
    | zero =>
      have ho : o = none := by simpa using hj
      subst ho
      have hgt : ¬ f + idx > l := by omega
      rw [gapFillVan_noFail_cons_none_le _ _ _ _ _ _ hgt]
      have hfr : ∀ j', rest.get? j' = some none → f + ((idx + 1) + j') ≤ l →
          f + (idx + 0) ≠ f + ((idx + 1) + j') := by
        intro j' _ _; omega
      rw [gapFillVan_noFail_frame _ _ _ _ _ _ _ hfr]
      rw [show f + (idx + 0) = f + idx by omega]
      exact Store.lookup_save_self _ _ _
    | succ j =>
      have hj' : rest.get? j = some none := hj
      have hadd : f + (idx + (j + 1)) = f + ((idx + 1) + j) := by omega
      cases o with
      | some hh =>
        rw [gapFillVan_cons_some, hadd]
        exact ih _ _ _ _ hj' (by omega)
      | none =>
        by_cases hgt : f + idx > l
        · rw [gapFillVan_cons_none_gt _ _ _ _ _ _ _ hgt, hadd]
          exact ih _ _ _ _ hj' (by omega)
        · rw [gapFillVan_noFail_cons_none_le _ _ _ _ _ _ hgt, hadd]
          exact ih _ _ _ _ hj' (by omega)

theorem gapFillPan_noFail_write (f l : Nat) (batch : List (Option HeaderHash)) (idx : Nat)
    (st : DBState) (e : Bool) (j : Nat)
    (hj : batch.get? j = some none) (hle : f + (idx + j) ≤ l) :
    (gapFillPan noFail f l batch idx st e).1.pandora.lookup (f + (idx + j)) =
      some ⟨EmptyHash, Status.Skipped⟩ := by
  induction batch generalizing idx st e j with
  | nil => exact absurd hj (by simp)
  | cons o rest ih =>
    cases j with
    | zero =>
      have ho : o = none := by simpa using hj
      subst ho
      have hgt : ¬ f + idx > l := by omega
      rw [gapFillPan_noFail_cons_none_le _ _ _ _ _ _ hgt]
      have hfr : ∀ j', rest.get? j' = some none → f + ((idx + 1) + j') ≤ l →
          f + (idx + 0) ≠ f + ((idx + 1) + j') := by
        intro j' _ _; omega
      rw [gapFillPan_noFail_frame _ _ _ _ _ _ _ hfr]
      rw [show f + (idx + 0) = f + idx by omega]
      exact Store.lookup_save_self _ _ _
    | succ j =>
      have hj' : rest.get? j = some none := hj
      have hadd : f + (idx + (j + 1)) = f + ((idx + 1) + j) := by omega
      cases o with
      | some hh =>
        rw [gapFillPan_cons_some, hadd]
        exact ih _ _ _ _ hj' (by omega)
      | none =>
        by_cases hgt : f + idx > l
        · rw [gapFillPan_cons_none_gt _ _ _ _ _ _ _ hgt, hadd]
          exact ih _ _ _ _ hj' (by omega)
        · rw [gapFillPan_noFail_cons_none_le _ _ _ _ _ _ hgt, hadd]
          exact ih _ _ _ _ hj' (by omega)

theorem gapFillVan_noFail_const (f l : Nat) (batch : List (Option HeaderHash)) (idx : Nat)
    (st : DBState) (e : Bool) (s : Nat) :
    (gapFillVan noFail f l batch idx st e).1.vanguard.lookup s =
        some ⟨EmptyHash, Status.Skipped⟩ ∨
    (gapFillVan noFail f l batch idx st e).1.vanguard.lookup s = st.vanguard.lookup s := by
  induction batch generalizing idx st e with
  | nil => exact Or.inr rfl
  | cons o rest ih =>
    cases o with
    | some hh => rw [gapFillVan_cons_some]; exact ih _ _ _
    | none =>
      by_cases hgt : f + idx > l
      · rw [gapFillVan_cons_none_gt _ _ _ _ _ _ _ hgt]; exact ih _ _ _
      · rw [gapFillVan_noFail_cons_none_le _ _ _ _ _ _ hgt]
        rcases ih ((idx + 1))
          ({ st with vanguard := st.vanguard.save (f + idx) ⟨EmptyHash, Status.Skipped⟩ })
          false with hc | hc
        · exact Or.inl hc
        · by_cases hk : s = f + idx
          · subst hk
            rw [hc]
            exact Or.inl (Store.lookup_save_self _ _ _)
          · rw [hc]
            exact Or.inr (Store.lookup_save_of_ne _ _ (Ne.symm hk))

theorem gapFillPan_noFail_const (f l : Nat) (batch : List (Option HeaderHash)) (idx : Nat)
    (st : DBState) (e : Bool) (s : Nat) :
    (gapFillPan noFail f l batch idx st e).1.pandora.lookup s =
        some ⟨EmptyHash, Status.Skipped⟩ ∨
    (gapFillPan noFail f l batch idx st e).1.pandora.lookup s = st.pandora.lookup s := by
  induction batch generalizing idx st e with
  | nil => exact Or.inr rfl
  | cons o rest ih =>
    cases o with
    | some hh => rw [gapFillPan_cons_some]; exact ih _ _ _
    | none =>
      by_cases hgt : f + idx > l
      · rw [gapFillPan_cons_none_gt _ _ _ _ _ _ _ hgt]; exact ih _ _ _
      · rw [gapFillPan_noFail_cons_none_le _ _ _ _ _ _ hgt]
        rcases ih ((idx + 1))
          ({ st with pandora := st.pandora.save (f + idx) ⟨EmptyHash, Status.Skipped⟩ })
          false with hc | hc
        · exact Or.inl hc
        · by_cases hk : s = f + idx
          · subst hk
            rw [hc]
            exact Or.inl (Store.lookup_save_self _ _ _)
          · rw [hc]
            exact Or.inr (Store.lookup_save_of_ne _ _ (Ne.symm hk))

theorem gapFillVan_noFail_other (f l : Nat) (batch : List (Option HeaderHash)) (idx : Nat)
    (st : DBState) (e : Bool) :
    (gapFillVan noFail f l batch idx st e).1.pandora = st.pandora ∧
    (gapFillVan noFail f l batch idx st e).1.realm = st.realm := by
  induction batch generalizing idx st e with
  | nil => exact ⟨rfl, rfl⟩
  | cons o rest ih =>
    cases o with
    | some hh => rw [gapFillVan_cons_some]; exact ih _ _ _
    | none =>
      by_cases hgt : f + idx > l
      · rw [gapFillVan_cons_none_gt _ _ _ _ _ _ _ hgt]; exact ih _ _ _
      · rw [gapFillVan_noFail_cons_none_le _ _ _ _ _ _ hgt]; exact ih _ _ _

theorem gapFillPan_noFail_other (f l : Nat) (batch : List (Option HeaderHash)) (idx : Nat)
    (st : DBState) (e : Bool) :
    (gapFillPan noFail f l batch idx st e).1.vanguard = st.vanguard ∧
    (gapFillPan noFail f l batch idx st e).1.realm = st.realm := by
  induction batch generalizing idx st e with
  | nil => exact ⟨rfl, rfl⟩
  | cons o rest ih =>
    cases o with
    | some hh => rw [gapFillPan_cons_some]; exact ih _ _ _
    | none =>
      by_cases hgt : f + idx > l
      · rw [gapFillPan_cons_none_gt _ _ _ _ _ _ _ hgt]; exact ih _ _ _
      · rw [gapFillPan_noFail_cons_none_le _ _ _ _ _ _ hgt]; exact ih _ _ _

/-! ### Composition of an error-free pass -/

theorem pairsPhase_noFail_vErr (latest : Nat) (pairs : List RealmPair) (st : DBState)
    (pend : List RealmPair) : (pairsPhase noFail latest pairs st pend).vanguardErr = false :=
  (pairsPhase_noFail_errs latest pairs st pend).1

theorem pairsPhase_noFail_pErr (latest : Nat) (pairs : List RealmPair) (st : DBState)
    (pend : List RealmPair) : (pairsPhase noFail latest pairs st pend).pandoraErr = false :=
  (pairsPhase_noFail_errs latest pairs st pend).2

theorem pendingPhase_noFail_vErr (pairs : List RealmPair) (st : DBState) :
    (pendingPhase noFail pairs st false false).vanguardErr = false :=
  (pendingPhase_noFail_errs pairs st).1

theorem pendingPhase_noFail_pErr (pairs : List RealmPair) (st : DBState) :
    (pendingPhase noFail pairs st false false).pandoraErr = false :=
  (pendingPhase_noFail_errs pairs st).2

theorem latePhases_noFail_eq (st : DBState) (w : invalidationWorkPayload) :
    latePhases noFail w.fromSlot w.invalidationStartRealmSlot (latestAfterLoop st w)
      (invalidationRangeOf st w) (loopOut st w) = (postGapState st w, none) := by
  simp only [latePhases, skipOrphansPan_noFail_err, skipOrphansVan_noFail_err,
    pairsPhase_noFail_vErr, pairsPhase_noFail_pErr, pendingPhase_noFail_vErr,
    pendingPhase_noFail_pErr, gapFillVan_noFail_err, gapFillPan_noFail_err,
    Bool.or_self, Bool.false_eq_true, if_false]
  rfl

theorem handlePreparedWork_noFail_eq (st : DBState) (w : invalidationWorkPayload)
    (hr : invalidationRangeOf st w ≠ 0) :
    handlePreparedWork noFail st w =
      ⟨postGapState st w, none, false, (loopOut st w).realmSaves⟩ := by
  obtain ⟨h1, h2, h3⟩ := verifyLoop_noFail_errs w.vanguardHashes w.pandoraHashes w.fromSlot
    (initAcc st w) rfl rfl rfl
  have hr' : ¬ (u64sub (verifyLoop noFail w.vanguardHashes w.pandoraHashes w.fromSlot
      (initAcc st w)).state.realm w.invalidationStartRealmSlot = 0) := hr
  simp only [handlePreparedWork, h1, h2, h3, Bool.or_self, Bool.false_eq_true, if_false,
    if_neg hr', if_neg (Nat.not_lt_zero _)]
  show (⟨(latePhases noFail w.fromSlot w.invalidationStartRealmSlot (latestAfterLoop st w)
      (invalidationRangeOf st w) (loopOut st w)).1,
    (latePhases noFail w.fromSlot w.invalidationStartRealmSlot (latestAfterLoop st w)
      (invalidationRangeOf st w) (loopOut st w)).2, false,
    (loopOut st w).realmSaves⟩ : HpwOut) = _
  rw [latePhases_noFail_eq]

theorem handlePreparedWork_noFail_zero (st : DBState) (w : invalidationWorkPayload)
    (hr : invalidationRangeOf st w = 0) :
    handlePreparedWork noFail st w =
      ⟨(loopOut st w).state, none, false, (loopOut st w).realmSaves⟩ := by
  obtain ⟨h1, h2, h3⟩ := verifyLoop_noFail_errs w.vanguardHashes w.pandoraHashes w.fromSlot
    (initAcc st w) rfl rfl rfl
  have hr' : u64sub (verifyLoop noFail w.vanguardHashes w.pandoraHashes w.fromSlot
      (initAcc st w)).state.realm w.invalidationStartRealmSlot = 0 := hr
  simp only [handlePreparedWork, h1, h2, h3, Bool.or_self, Bool.false_eq_true, if_false,
    if_pos hr']
  rfl

theorem postGapState_realm (st : DBState) (w : invalidationWorkPayload) :
    (postGapState st w).realm = latestAfterLoop st w := by
  show (gapFillPan noFail _ _ _ _ (gapFillVan noFail _ _ _ _ (preGapState st w) _).1 _).1.realm = _
  rw [(gapFillPan_noFail_other _ _ _ _ _ _).2, (gapFillVan_noFail_other _ _ _ _ _ _).2]
  show (pendingPhase noFail _ (pairsPhase noFail _ _
    (skipOrphansVan noFail _ (skipOrphansPan noFail _ (loopOut st w).state false).1 false).1
      []).state _ _).state.realm = _
  rw [pendingPhase_noFail_realm, pairsPhase_noFail_realm,
    (skipOrphansVan_frame _ _ _ _).2, (skipOrphansPan_frame _ _ _ _).2]
  rfl

theorem preGapState_realm (st : DBState) (w : invalidationWorkPayload) :
    (preGapState st w).realm = latestAfterLoop st w := by
  show (pendingPhase noFail _ (pairsPhase noFail _ _
    (skipOrphansVan noFail _ (skipOrphansPan noFail _ (loopOut st w).state false).1 false).1
      []).state _ _).state.realm = _
  rw [pendingPhase_noFail_realm, pairsPhase_noFail_realm,
    (skipOrphansVan_frame _ _ _ _).2, (skipOrphansPan_frame _ _ _ _).2]
  rfl

/-! ### Named intermediate stages of an error-free pass -/

/-- State after pandora-orphan finalization. -/
def stateA (st : DBState) (w : invalidationWorkPayload) : DBState :=
  (skipOrphansPan noFail (loopOut st w).pandoraOrphans (loopOut st w).state false).1

/-- State after both orphan finalizations. -/
def stateB (st : DBState) (w : invalidationWorkPayload) : DBState :=
  (skipOrphansVan noFail (loopOut st w).vanguardOrphans (stateA st w) false).1

/-- Output of the possible-skipped finalization. -/
def pairsOut (st : DBState) (w : invalidationWorkPayload) : PairsOut :=
  pairsPhase noFail (latestAfterLoop st w) (loopOut st w).possibleSkippedPair (stateB st w) []

/-- The re-read vanguard batch used by gap filling. -/
def fvBatch (st : DBState) (w : invalidationWorkPayload) : List (Option HeaderHash) :=
  vanguardHeaderHashes (preGapState st w).vanguard w.invalidationStartRealmSlot
    (invalidationRangeOf st w)

/-- The re-read pandora batch used by gap filling. -/
def fpBatch (st : DBState) (w : invalidationWorkPayload) : List (Option HeaderHash) :=
  pandoraHeaderHashes (preGapState st w).pandora w.invalidationStartRealmSlot
    (invalidationRangeOf st w)

theorem preGapState_eq (st : DBState) (w : invalidationWorkPayload) :
    preGapState st w =
      (pendingPhase noFail (pairsOut st w).pendingPairs (pairsOut st w).state
        false false).state := rfl

theorem postGapState_eq (st : DBState) (w : invalidationWorkPayload) :
    postGapState st w =
      (gapFillPan noFail w.fromSlot (latestAfterLoop st w) (fpBatch st w) 0
        (gapFillVan noFail w.fromSlot (latestAfterLoop st w) (fvBatch st w) 0
          (preGapState st w) false).1 false).1 := rfl

/-- With an empty initial pair collection, every re-queued pending pair was
produced by the loop, hence carries no hashes. -/
theorem pendingPairs_clean (st : DBState) (w : invalidationWorkPayload)
    (hP : w.possibleSkippedPair = []) :
    ∀ x ∈ (pairsOut st w).pendingPairs, x.vanguardHash = none ∧ x.pandoraHashes = [] := by
  intro x hx
  rcases pairsPhase_noFail_pend_char _ _ _ _ _ hx with h | h
  · exact absurd h (List.not_mem_nil x)
  · rcases verifyLoop_noFail_pairs_char _ _ _ _ _ h with h' | ⟨i', hxx, _, _⟩
    · rw [show (initAcc st w).possibleSkippedPair = w.possibleSkippedPair from rfl, hP] at h'
      exact absurd h' (List.not_mem_nil x)
    · rw [hxx]; exact ⟨rfl, rfl⟩

/-- A slot cannot be a possible-skipped slot of the loop unless both batch
entries at its index are present-but-nil. -/
theorem pairSlots_not_mem (st : DBState) (w : invalidationWorkPayload)
    (hP : w.possibleSkippedPair = []) (i latest : Nat)
    (hvp : w.vanguardHashes.get? i ≠ some none ∨ w.pandoraHashes.get? i ≠ some none) :
    w.fromSlot + i ∉ (((loopOut st w).possibleSkippedPair.filter
      fun pr => decide (pr.slot ≤ latest)).map RealmPair.slot) := by
  intro hmem
  rcases List.mem_map.1 hmem with ⟨pr, hprf, hslot⟩
  rcases List.mem_filter.1 hprf with ⟨hpr, _⟩
  rcases verifyLoop_noFail_pairs_char _ _ _ _ _ hpr with h' | ⟨i', hx, hvn, hpn⟩
  · rw [show (initAcc st w).possibleSkippedPair = w.possibleSkippedPair from rfl, hP] at h'
    exact absurd h' (List.not_mem_nil pr)
  · rw [hx] at hslot
    have hii : i' = i := by
      have heq : w.fromSlot + i' = w.fromSlot + i := hslot
      omega
    subst hii
    rcases hvp with h | h
    · exact h hvn
    · exact h hpn

/-- A slot cannot be a vanguard-orphan slot of the loop unless its index is
vanguard-present and pandora-nil. -/
theorem vanOrphanKeys_not_mem (st : DBState) (w : invalidationWorkPayload)
    (hVO : w.vanguardOrphans = []) (i : Nat)
    (h : ∀ v', ¬ (w.vanguardHashes.get? i = some (some v') ∧
      w.pandoraHashes.get? i = some none)) :
    w.fromSlot + i ∉ ((loopOut st w).vanguardOrphans.map Prod.fst) := by
  intro hmem
  rcases List.mem_map.1 hmem with ⟨x, hxmem, hslot⟩
  rcases verifyLoop_noFail_vanOrphans_char _ _ _ _ _ hxmem with h' | ⟨i', v', hx, hvn, hpn⟩
  · rw [show (initAcc st w).vanguardOrphans = w.vanguardOrphans from rfl, hVO] at h'
    exact absurd h' (List.not_mem_nil x)
  · rw [hx] at hslot
    have hii : i' = i := by
      have heq : w.fromSlot + i' = w.fromSlot + i := hslot
      omega
    subst hii
    exact h v' ⟨hvn, hpn⟩

/-- A slot cannot be a pandora-orphan slot of the loop unless its index is
vanguard-nil and pandora-present. -/
theorem panOrphanKeys_not_mem (st : DBState) (w : invalidationWorkPayload)
    (hPO : w.pandoraOrphans = []) (i : Nat)
    (h : ∀ p', ¬ (w.vanguardHashes.get? i = some none ∧
      w.pandoraHashes.get? i = some (some p'))) :
    w.fromSlot + i ∉ ((loopOut st w).pandoraOrphans.map Prod.fst) := by
  intro hmem
  rcases List.mem_map.1 hmem with ⟨x, hxmem, hslot⟩
  rcases verifyLoop_noFail_panOrphans_char _ _ _ _ _ hxmem with h' | ⟨i', p', hx, hvn, hpn⟩
  · rw [show (initAcc st w).pandoraOrphans = w.pandoraOrphans from rfl, hPO] at h'
    exact absurd h' (List.not_mem_nil x)
  · rw [hx] at hslot
    have hii : i' = i := by
      have heq : w.fromSlot + i' = w.fromSlot + i := hslot
      omega
    subst hii
    exact h p' ⟨hvn, hpn⟩

/-! ### Claim theorems -/

/-- C1: in a canonicalization pass over a freshly prepared payload (empty
pair and orphan collections, `fromSlot` equal to the invalidation start)
with error-free storage, every
slot `s = fromSlot + i` at which both the consensus-chain (vanguard) and the
execution-chain (pandora) batch entries are present ends the pass `Verified`
in both stores with the respective original hashes preserved, and the realm
watermark is advanced at least to `s`. -/
theorem claim_C1 (st : DBState) (w : invalidationWorkPayload) (i : Nat) (v p : HeaderHash)
    (hP : w.possibleSkippedPair = []) (hVO : w.vanguardOrphans = [])
    (hPO : w.pandoraOrphans = [])
    (hF : w.fromSlot = w.invalidationStartRealmSlot)
    (hv : w.vanguardHashes.get? i = some (some v))
    (hp : w.pandoraHashes.get? i = some (some p)) :
    (handlePreparedWork noFail st w).state.vanguard.lookup (w.fromSlot + i) =
        some ⟨v.headerHash, Status.Verified⟩ ∧
    (handlePreparedWork noFail st w).state.pandora.lookup (w.fromSlot + i) =
        some ⟨p.headerHash, Status.Verified⟩ ∧
    w.fromSlot + i ≤ (handlePreparedWork noFail st w).state.realm := by
  have hverified := verifyLoop_noFail_verified w.vanguardHashes w.pandoraHashes w.fromSlot
    (initAcc st w) i v p hv hp
  have hnm_pairs := pairSlots_not_mem st w hP i (latestAfterLoop st w)
    (Or.inl (by rw [hv]; intro hc; cases hc))
  have hnm_van := vanOrphanKeys_not_mem st w hVO i
    (fun v' hc => by rw [hp] at hc; cases hc.2)
  have hnm_pan := panOrphanKeys_not_mem st w hPO i
    (fun p' hc => by rw [hv] at hc; cases hc.1)
  have hclean := pendingPairs_clean st w hP
  -- value of the pre-gap state at the verified slot
  have hpre_van : (preGapState st w).vanguard.lookup (w.fromSlot + i) =
      some ⟨v.headerHash, Status.Verified⟩ := by
    rw [preGapState_eq, pendingPhase_noop _ _ _ _ _ hclean]
    show (pairsOut st w).state.vanguard.lookup (w.fromSlot + i) = _
    rw [pairsOut, pairsPhase_noFail_van_lookup, if_neg hnm_pairs]
    show (stateB st w).vanguard.lookup (w.fromSlot + i) = _
    rw [stateB, skipOrphansVan_noFail_lookup, if_neg hnm_van]
    show (stateA st w).vanguard.lookup (w.fromSlot + i) = _
    rw [stateA, (skipOrphansPan_frame _ _ _ _).1]
    exact hverified.1
  have hpre_pan : (preGapState st w).pandora.lookup (w.fromSlot + i) =
      some ⟨p.headerHash, Status.Verified⟩ := by
    rw [preGapState_eq, pendingPhase_noop _ _ _ _ _ hclean]
    show (pairsOut st w).state.pandora.lookup (w.fromSlot + i) = _
    rw [pairsOut, pairsPhase_noFail_pan_lookup, if_neg hnm_pairs]
    show (stateB st w).pandora.lookup (w.fromSlot + i) = _
    rw [stateB, (skipOrphansVan_frame _ _ _ _).1]
    show (stateA st w).pandora.lookup (w.fromSlot + i) = _
    rw [stateA, skipOrphansPan_noFail_lookup, if_neg hnm_pan]
    exact hverified.2.1
  by_cases hr : invalidationRangeOf st w = 0
  · rw [handlePreparedWork_noFail_zero st w hr]
    exact ⟨hverified.1, hverified.2.1, hverified.2.2⟩
  · rw [handlePreparedWork_noFail_eq st w hr]
    refine ⟨?_, ?_, ?_⟩
    · show (postGapState st w).vanguard.lookup (w.fromSlot + i) = _
      rw [postGapState_eq, (gapFillPan_noFail_other _ _ _ _ _ _).1]
      rw [gapFillVan_noFail_frame _ _ _ _ _ _ _ ?hfr]
      · exact hpre_van
      case hfr =>
        intro j hj hle heq
        have hij : j = i := by omega
        subst hij
        rw [fvBatch, vanguardHeaderHashes_get] at hj
        by_cases hjr : j < invalidationRangeOf st w
        · rw [if_pos hjr] at hj
          have hnone : (preGapState st w).vanguard.lookup
              (w.invalidationStartRealmSlot + j) = none := by
            simpa using hj
          rw [← hF] at hnone
          rw [hnone] at hpre_van
          cases hpre_van
        · rw [if_neg hjr] at hj
          cases hj
    · show (postGapState st w).pandora.lookup (w.fromSlot + i) = _
      rw [postGapState_eq]
      rw [gapFillPan_noFail_frame _ _ _ _ _ _ _ ?hfrp]
      · rw [(gapFillVan_noFail_other _ _ _ _ _ _).1]
        exact hpre_pan
      case hfrp =>
        intro j hj hle heq
        have hij : j = i := by omega
        subst hij
        rw [fpBatch, pandoraHeaderHashes_get] at hj
        by_cases hjr : j < invalidationRangeOf st w
        · rw [if_pos hjr] at hj
          have hnone : (preGapState st w).pandora.lookup
              (w.invalidationStartRealmSlot + j) = none := by
            simpa using hj
          rw [← hF] at hnone
          rw [hnone] at hpre_pan
          cases hpre_pan
        · rw [if_neg hjr] at hj
          cases hj
    · show w.fromSlot + i ≤ (postGapState st w).realm
      rw [postGapState_realm]
      exact hverified.2.2

/-- When the loop advanced the watermark beyond the invalidation start (with
slots in the `uint64` range), the unsigned invalidation range is nonzero. -/
theorem invalidationRange_ne_zero (st : DBState) (w : invalidationWorkPayload)
    (hR : st.realm = w.invalidationStartRealmSlot)
    (hB : w.fromSlot + w.vanguardHashes.length < U64)
    (hAdv : w.invalidationStartRealmSlot < latestAfterLoop st w) :
    invalidationRangeOf st w ≠ 0 := by
  have hlt : latestAfterLoop st w < U64 := by
    rcases verifyLoop_noFail_realm w.vanguardHashes w.pandoraHashes w.fromSlot (initAcc st w)
      with h | ⟨h1, h2⟩
    · have hl : latestAfterLoop st w = st.realm := h
      omega
    · have hl : latestAfterLoop st w < w.fromSlot + w.vanguardHashes.length := h2
      omega
  unfold invalidationRangeOf
  rw [u64sub_eq_sub (le_of_lt hAdv) hlt]
  omega

/-- C6: in a pass over a freshly prepared payload with error-free storage
that advances the watermark, every orphan slot — one where exactly one chain
produced a batch entry — ends the pass recorded in the corresponding store as
`{empty hash, Skipped}`, discarding the orphan's original hash. -/
theorem claim_C6 (st : DBState) (w : invalidationWorkPayload)
    (hP : w.possibleSkippedPair = [])
    (hR : st.realm = w.invalidationStartRealmSlot)
    (hB : w.fromSlot + w.vanguardHashes.length < U64)
    (hAdv : w.invalidationStartRealmSlot < latestAfterLoop st w) :
    (∀ i v, w.vanguardHashes.get? i = some (some v) →
      w.pandoraHashes.get? i = some none →
      (handlePreparedWork noFail st w).state.vanguard.lookup (w.fromSlot + i) =
        some ⟨EmptyHash, Status.Skipped⟩) ∧
    (∀ i p, w.vanguardHashes.get? i = some none →
      w.pandoraHashes.get? i = some (some p) →
      (handlePreparedWork noFail st w).state.pandora.lookup (w.fromSlot + i) =
        some ⟨EmptyHash, Status.Skipped⟩) := by
  have hr := invalidationRange_ne_zero st w hR hB hAdv
  rw [handlePreparedWork_noFail_eq st w hr]
  constructor
  · intro i v hv hp
    have hmemOrph := verifyLoop_noFail_vanOrphan_mem w.vanguardHashes w.pandoraHashes
      w.fromSlot (initAcc st w) i v hv hp
    have hkey : w.fromSlot + i ∈ (loopOut st w).vanguardOrphans.map Prod.fst :=
      List.mem_map.2 ⟨_, hmemOrph, rfl⟩
    have hBval : (stateB st w).vanguard.lookup (w.fromSlot + i) =
        some ⟨EmptyHash, Status.Skipped⟩ := by
      rw [stateB, skipOrphansVan_noFail_lookup, if_pos hkey]
    have hpre : (preGapState st w).vanguard.lookup (w.fromSlot + i) =
        some ⟨EmptyHash, Status.Skipped⟩ := by
      rw [preGapState_eq, pendingPhase_noop _ _ _ _ _ (pendingPairs_clean st w hP)]
      show (pairsOut st w).state.vanguard.lookup (w.fromSlot + i) = _
      rw [pairsOut, pairsPhase_noFail_van_lookup]
      split
      · rfl
      · exact hBval
    show (postGapState st w).vanguard.lookup (w.fromSlot + i) = _
    rw [postGapState_eq, (gapFillPan_noFail_other _ _ _ _ _ _).1]
    rcases gapFillVan_noFail_const w.fromSlot (latestAfterLoop st w) (fvBatch st w) 0
      (preGapState st w) false (w.fromSlot + i) with h | h
    · exact h
    · rw [h]; exact hpre
  · intro i p hv hp
    have hmemOrph := verifyLoop_noFail_panOrphan_mem w.vanguardHashes w.pandoraHashes
      w.fromSlot (initAcc st w) i p hv hp
    have hkey : w.fromSlot + i ∈ (loopOut st w).pandoraOrphans.map Prod.fst :=
      List.mem_map.2 ⟨_, hmemOrph, rfl⟩
    have hAval : (stateA st w).pandora.lookup (w.fromSlot + i) =
        some ⟨EmptyHash, Status.Skipped⟩ := by
      rw [stateA, skipOrphansPan_noFail_lookup, if_pos hkey]
    have hpre : (preGapState st w).pandora.lookup (w.fromSlot + i) =
        some ⟨EmptyHash, Status.Skipped⟩ := by
      rw [preGapState_eq, pendingPhase_noop _ _ _ _ _ (pendingPairs_clean st w hP)]
      show (pairsOut st w).state.pandora.lookup (w.fromSlot + i) = _
      rw [pairsOut, pairsPhase_noFail_pan_lookup]
      split
      · rfl
      · show (stateB st w).pandora.lookup (w.fromSlot + i) = _
        rw [stateB, (skipOrphansVan_frame _ _ _ _).1]
        exact hAval
    show (postGapState st w).pandora.lookup (w.fromSlot + i) = _
    rw [postGapState_eq]
    rcases gapFillPan_noFail_const w.fromSlot (latestAfterLoop st w) (fpBatch st w) 0
      (gapFillVan noFail w.fromSlot (latestAfterLoop st w) (fvBatch st w) 0
        (preGapState st w) false).1 false (w.fromSlot + i) with h | h
    · exact h
    · rw [h, (gapFillVan_noFail_other _ _ _ _ _ _).1]
      exact hpre

/-- C8: in a pass over a freshly prepared payload with error-free storage
that advances the watermark, a candidate possible-skipped slot (both batch
entries present-but-nil) at or below the re-read watermark is written as
`Skipped` on both stores, while such a slot above the re-read watermark is
left unmodified in both stores. -/
theorem claim_C8 (st : DBState) (w : invalidationWorkPayload) (i : Nat)
    (hP : w.possibleSkippedPair = []) (hVO : w.vanguardOrphans = [])
    (hPO : w.pandoraOrphans = [])
    (hR : st.realm = w.invalidationStartRealmSlot)
    (hB : w.fromSlot + w.vanguardHashes.length < U64)
    (hAdv : w.invalidationStartRealmSlot < latestAfterLoop st w)
    (hv : w.vanguardHashes.get? i = some none)
    (hp : w.pandoraHashes.get? i = some none) :
    (w.fromSlot + i ≤ latestAfterLoop st w →
      (handlePreparedWork noFail st w).state.vanguard.lookup (w.fromSlot + i) =
          some ⟨EmptyHash, Status.Skipped⟩ ∧
      (handlePreparedWork noFail st w).state.pandora.lookup (w.fromSlot + i) =
          some ⟨EmptyHash, Status.Skipped⟩) ∧
    (latestAfterLoop st w < w.fromSlot + i →
      (handlePreparedWork noFail st w).state.vanguard.lookup (w.fromSlot + i) =
          st.vanguard.lookup (w.fromSlot + i) ∧
      (handlePreparedWork noFail st w).state.pandora.lookup (w.fromSlot + i) =
          st.pandora.lookup (w.fromSlot + i)) := by
  have hr := invalidationRange_ne_zero st w hR hB hAdv
  rw [handlePreparedWork_noFail_eq st w hr]
  have hclean := pendingPairs_clean st w hP
  constructor
  · -- slot at or below the watermark: written Skipped on both stores
    intro hle
    have hpairmem := verifyLoop_noFail_pair_mem w.vanguardHashes w.pandoraHashes
      w.fromSlot (initAcc st w) i hv hp
    have hwr : w.fromSlot + i ∈ (((loopOut st w).possibleSkippedPair.filter
        fun pr => decide (pr.slot ≤ latestAfterLoop st w)).map RealmPair.slot) :=
      List.mem_map.2 ⟨⟨w.fromSlot + i, none, []⟩,
        List.mem_filter.2 ⟨hpairmem, by simpa using hle⟩, rfl⟩
    have hpre_van : (preGapState st w).vanguard.lookup (w.fromSlot + i) =
        some ⟨EmptyHash, Status.Skipped⟩ := by
      rw [preGapState_eq, pendingPhase_noop _ _ _ _ _ hclean]
      show (pairsOut st w).state.vanguard.lookup (w.fromSlot + i) = _
      rw [pairsOut, pairsPhase_noFail_van_lookup, if_pos hwr]
    have hpre_pan : (preGapState st w).pandora.lookup (w.fromSlot + i) =
        some ⟨EmptyHash, Status.Skipped⟩ := by
      rw [preGapState_eq, pendingPhase_noop _ _ _ _ _ hclean]
      show (pairsOut st w).state.pandora.lookup (w.fromSlot + i) = _
      rw [pairsOut, pairsPhase_noFail_pan_lookup, if_pos hwr]
    constructor
    · show (postGapState st w).vanguard.lookup (w.fromSlot + i) = _
      rw [postGapState_eq, (gapFillPan_noFail_other _ _ _ _ _ _).1]
      rcases gapFillVan_noFail_const w.fromSlot (latestAfterLoop st w) (fvBatch st w) 0
        (preGapState st w) false (w.fromSlot + i) with h | h
      · exact h
      · rw [h]; exact hpre_van
    · show (postGapState st w).pandora.lookup (w.fromSlot + i) = _
      rw [postGapState_eq]
      rcases gapFillPan_noFail_const w.fromSlot (latestAfterLoop st w) (fpBatch st w) 0
        (gapFillVan noFail w.fromSlot (latestAfterLoop st w) (fvBatch st w) 0
          (preGapState st w) false).1 false (w.fromSlot + i) with h | h
      · exact h
      · rw [h, (gapFillVan_noFail_other _ _ _ _ _ _).1]
        exact hpre_pan
  · -- slot above the watermark: untouched by every phase of the pass
    intro hgt
    have hnm_pairs : w.fromSlot + i ∉ (((loopOut st w).possibleSkippedPair.filter
        fun pr => decide (pr.slot ≤ latestAfterLoop st w)).map RealmPair.slot) := by
      intro hmem
      rcases List.mem_map.1 hmem with ⟨pr, hprf, hslot⟩
      rcases List.mem_filter.1 hprf with ⟨_, hdec⟩
      have : pr.slot ≤ latestAfterLoop st w := by simpa using hdec
      omega
    have hnm_van := vanOrphanKeys_not_mem st w hVO i
      (fun v' hc => by rw [hv] at hc; cases hc.1)
    have hnm_pan := panOrphanKeys_not_mem st w hPO i
      (fun p' hc => by rw [hp] at hc; cases hc.2)
    have hloopfr : ∀ i' v' p', w.vanguardHashes.get? i' = some (some v') →
        w.pandoraHashes.get? i' = some (some p') → w.fromSlot + i ≠ w.fromSlot + i' := by
      intro i' v' p' hv' hp' heq
      have hii : i' = i := by omega
      subst hii
      rw [hv] at hv'; cases hv'
    have hgapfr : ∀ j, (fvBatch st w).get? j = some none →
        w.fromSlot + (0 + j) ≤ latestAfterLoop st w →
        w.fromSlot + i ≠ w.fromSlot + (0 + j) := by
      intro j _ hlej heq
      omega
    have hgapfrp : ∀ j, (fpBatch st w).get? j = some none →
        w.fromSlot + (0 + j) ≤ latestAfterLoop st w →
        w.fromSlot + i ≠ w.fromSlot + (0 + j) := by
      intro j _ hlej heq
      omega
    have hpre_van : (preGapState st w).vanguard.lookup (w.fromSlot + i) =
        st.vanguard.lookup (w.fromSlot + i) := by
      rw [preGapState_eq, pendingPhase_noop _ _ _ _ _ hclean]
      show (pairsOut st w).state.vanguard.lookup (w.fromSlot + i) = _
      rw [pairsOut, pairsPhase_noFail_van_lookup, if_neg hnm_pairs]
      show (stateB st w).vanguard.lookup (w.fromSlot + i) = _
      rw [stateB, skipOrphansVan_noFail_lookup, if_neg hnm_van]
      show (stateA st w).vanguard.lookup (w.fromSlot + i) = _
      rw [stateA, (skipOrphansPan_frame _ _ _ _).1]
      exact verifyLoop_noFail_van_frame _ _ _ _ _ hloopfr
    have hpre_pan : (preGapState st w).pandora.lookup (w.fromSlot + i) =
        st.pandora.lookup (w.fromSlot + i) := by
      rw [preGapState_eq, pendingPhase_noop _ _ _ _ _ hclean]
      show (pairsOut st w).state.pandora.lookup (w.fromSlot + i) = _
      rw [pairsOut, pairsPhase_noFail_pan_lookup, if_neg hnm_pairs]
      show (stateB st w).pandora.lookup (w.fromSlot + i) = _
      rw [stateB, (skipOrphansVan_frame _ _ _ _).1]
      show (stateA st w).pandora.lookup (w.fromSlot + i) = _
      rw [stateA, skipOrphansPan_noFail_lookup, if_neg hnm_pan]
      exact verifyLoop_noFail_pan_frame _ _ _ _ _ hloopfr
    constructor
    · show (postGapState st w).vanguard.lookup (w.fromSlot + i) = _
      rw [postGapState_eq, (gapFillPan_noFail_other _ _ _ _ _ _).1,
        gapFillVan_noFail_frame _ _ _ _ _ _ _ hgapfr]
      exact hpre_van
    · show (postGapState st w).pandora.lookup (w.fromSlot + i) = _
      rw [postGapState_eq, gapFillPan_noFail_frame _ _ _ _ _ _ _ hgapfrp,
        (gapFillVan_noFail_other _ _ _ _ _ _).1]
      exact hpre_pan

/-- C7 (amended): in an error-free pass that reached gap filling, every
position of the re-read batch still holding `nil` whose slot — computed as
`fromSlot` plus the position's index — is at or below the re-read watermark
is written as `{empty hash, Skipped}` at that `fromSlot`-based slot in the
corresponding store. -/
theorem claim_C7_amended (st : DBState) (w : invalidationWorkPayload)
    (hr : invalidationRangeOf st w ≠ 0) :
    (∀ j, (fvBatch st w).get? j = some none →
      w.fromSlot + j ≤ latestAfterLoop st w →
      (handlePreparedWork noFail st w).state.vanguard.lookup (w.fromSlot + j) =
        some ⟨EmptyHash, Status.Skipped⟩) ∧
    (∀ j, (fpBatch st w).get? j = some none →
      w.fromSlot + j ≤ latestAfterLoop st w →
      (handlePreparedWork noFail st w).state.pandora.lookup (w.fromSlot + j) =
        some ⟨EmptyHash, Status.Skipped⟩) := by
  rw [handlePreparedWork_noFail_eq st w hr]
  constructor
  · intro j hj hle
    show (postGapState st w).vanguard.lookup (w.fromSlot + j) = _
    rw [postGapState_eq, (gapFillPan_noFail_other _ _ _ _ _ _).1]
    have hw := gapFillVan_noFail_write w.fromSlot (latestAfterLoop st w) (fvBatch st w) 0
      (preGapState st w) false j hj (by omega)
    rw [Nat.zero_add] at hw
    exact hw
  · intro j hj hle
    show (postGapState st w).pandora.lookup (w.fromSlot + j) = _
    rw [postGapState_eq]
    have hw := gapFillPan_noFail_write w.fromSlot (latestAfterLoop st w) (fpBatch st w) 0
      (gapFillVan noFail w.fromSlot (latestAfterLoop st w) (fvBatch st w) 0
        (preGapState st w) false).1 false j hj (by omega)
    rw [Nat.zero_add] at hw
    exact hw

/-- Concrete pass used to separate the gap-filling slot computations: initial
watermark 10, payload prepared with invalidation start 2 but `fromSlot` 0,
and a single one-sided batch entry. -/
def c7st : DBState := ⟨[], [], 10⟩

/-- Payload of the C7 separating pass. -/
def c7w : invalidationWorkPayload :=
  ⟨2, 0, [], [none], [some ⟨7, Status.Pending⟩], [], []⟩

/-- C7 (counterexample): in the separating pass, the re-read batch over
`[2, 2+8)` holds `nil` at position 6 and the claim's slot `2 + 6 = 8` is
below the watermark 10, yet the pass leaves slot 8 absent from the vanguard
store: the gap filler addresses slots from `fromSlot`, not from the
invalidation start. -/
theorem claim_C7_counterexample :
    latestAfterLoop c7st c7w = 10 ∧
    invalidationRangeOf c7st c7w = 8 ∧
    (fvBatch c7st c7w).get? 6 = some none ∧
    c7w.invalidationStartRealmSlot + 6 ≤ latestAfterLoop c7st c7w ∧
    (handlePreparedWork noFail c7st c7w).state.vanguard.lookup
      (c7w.invalidationStartRealmSlot + 6) = none := by
  decide

/-- Witness for the amended C7: position 5 of the same re-read batch is
filled at slot `fromSlot + 5 = 5`. -/
theorem claim_C7_witness :
    (handlePreparedWork noFail c7st c7w).state.vanguard.lookup (c7w.fromSlot + 5) =
      some ⟨EmptyHash, Status.Skipped⟩ :=
  (claim_C7_amended c7st c7w (by decide)).1 5 (by decide) (by decide)

/-- Concrete state for C2: history already verified up to slot 1, terminal
records at slots 0 and 1 in both stores. -/
def c2st : DBState :=
  ⟨[(0, ⟨5, Status.Skipped⟩), (1, ⟨6, Status.Verified⟩)],
   [(0, ⟨7, Status.Skipped⟩), (1, ⟨8, Status.Verified⟩)], 1⟩

/-- C2 payload: a pass triggered with a stale `fromSlot = 0` while the
watermark read at pass start is 1; the dense batches re-expose the terminal
records at slots 0 and 1. -/
def c2w : invalidationWorkPayload :=
  ⟨1, 0, [],
   [some ⟨7, Status.Skipped⟩, some ⟨8, Status.Verified⟩],
   [some ⟨5, Status.Skipped⟩, some ⟨6, Status.Verified⟩], [], []⟩

/-- C2 (code bug): a pass with `fromSlot = 0 ≤ watermark = 1` re-verifies the
terminal records below the watermark and passes the values 0 and then 1 to
`SaveLatestVerifiedRealmSlot`; the first value, 0, is strictly below the
watermark read at the start of the pass, and after the first batch entry the
stored watermark has actually moved backward to 0. -/
theorem claim_C2 :
    c2w.fromSlot ≤ c2st.realm ∧
    c2st.realm = c2w.invalidationStartRealmSlot ∧
    (handlePreparedWork noFail c2st c2w).realmSaves = [0, 1] ∧
    (verifyLoop noFail (c2w.vanguardHashes.take 1) (c2w.pandoraHashes.take 1) c2w.fromSlot
      (initAcc c2st c2w)).state.realm = 0 ∧
    0 < c2w.invalidationStartRealmSlot := by
  decide

/-- Failure oracle for C3: the consensus-side (vanguard) save fails exactly
at slot 3. -/
def vanFailAt3 : FailCfg := ⟨fun s => s == 3, fun _ => false, fun _ => false⟩

/-- C3 batches: both chains produced at slots 1-5, nothing at slot 0. -/
def c3w (h1 h2 h3 h4 h5 g1 g2 g3 g4 g5 : Hash) : invalidationWorkPayload :=
  ⟨0, 0, [],
   [none, some ⟨g1, Status.Pending⟩, some ⟨g2, Status.Pending⟩, some ⟨g3, Status.Pending⟩,
    some ⟨g4, Status.Pending⟩, some ⟨g5, Status.Pending⟩],
   [none, some ⟨h1, Status.Pending⟩, some ⟨h2, Status.Pending⟩, some ⟨h3, Status.Pending⟩,
    some ⟨h4, Status.Pending⟩, some ⟨h5, Status.Pending⟩],
   [], []⟩

/-- C3 (amended): when the consensus-side save fails at slot 3 of a batch
covering slots 1-5, the pass stops there; slots 1-2 are Verified in both
stores, the watermark equals 2, the consensus record at slot 3 is left
unmodified, the execution-side write at slot 3 is still issued and succeeds
(Verified), slots 4-5 are untouched in both stores, a composite error with
only the consensus error set is pushed on the error channel, and the engine
does not panic. -/
theorem claim_C3_amended (st : DBState) (h1 h2 h3 h4 h5 g1 g2 g3 g4 g5 : Hash) :
    (handlePreparedWork vanFailAt3 st (c3w h1 h2 h3 h4 h5 g1 g2 g3 g4 g5)).sentErrors =
        some ⟨true, false, false⟩ ∧
    (handlePreparedWork vanFailAt3 st (c3w h1 h2 h3 h4 h5 g1 g2 g3 g4 g5)).state.realm = 2 ∧
    (handlePreparedWork vanFailAt3 st (c3w h1 h2 h3 h4 h5 g1 g2 g3 g4 g5)).state.vanguard.lookup 1 =
        some ⟨h1, Status.Verified⟩ ∧
    (handlePreparedWork vanFailAt3 st (c3w h1 h2 h3 h4 h5 g1 g2 g3 g4 g5)).state.vanguard.lookup 2 =
        some ⟨h2, Status.Verified⟩ ∧
    (handlePreparedWork vanFailAt3 st (c3w h1 h2 h3 h4 h5 g1 g2 g3 g4 g5)).state.pandora.lookup 1 =
        some ⟨g1, Status.Verified⟩ ∧
    (handlePreparedWork vanFailAt3 st (c3w h1 h2 h3 h4 h5 g1 g2 g3 g4 g5)).state.pandora.lookup 2 =
        some ⟨g2, Status.Verified⟩ ∧
    (handlePreparedWork vanFailAt3 st (c3w h1 h2 h3 h4 h5 g1 g2 g3 g4 g5)).state.vanguard.lookup 3 =
        st.vanguard.lookup 3 ∧
    (handlePreparedWork vanFailAt3 st (c3w h1 h2 h3 h4 h5 g1 g2 g3 g4 g5)).state.pandora.lookup 3 =
        some ⟨g3, Status.Verified⟩ ∧
    (handlePreparedWork vanFailAt3 st (c3w h1 h2 h3 h4 h5 g1 g2 g3 g4 g5)).state.vanguard.lookup 4 =
        st.vanguard.lookup 4 ∧
    (handlePreparedWork vanFailAt3 st (c3w h1 h2 h3 h4 h5 g1 g2 g3 g4 g5)).state.pandora.lookup 4 =
        st.pandora.lookup 4 ∧
    (handlePreparedWork vanFailAt3 st (c3w h1 h2 h3 h4 h5 g1 g2 g3 g4 g5)).state.vanguard.lookup 5 =
        st.vanguard.lookup 5 ∧
    (handlePreparedWork vanFailAt3 st (c3w h1 h2 h3 h4 h5 g1 g2 g3 g4 g5)).state.pandora.lookup 5 =
        st.pandora.lookup 5 ∧
    (handlePreparedWork vanFailAt3 st (c3w h1 h2 h3 h4 h5 g1 g2 g3 g4 g5)).fatal = false :=
  ⟨rfl, rfl, rfl, rfl, rfl, rfl, rfl, rfl, rfl, rfl, rfl, rfl, rfl⟩

/-- Concrete initial state for the C3 counterexample: Pending records at
slots 1-5 in both stores. -/
def c3st : DBState :=
  ⟨[(1, ⟨11, Status.Pending⟩), (2, ⟨12, Status.Pending⟩), (3, ⟨13, Status.Pending⟩),
    (4, ⟨14, Status.Pending⟩), (5, ⟨15, Status.Pending⟩)],
   [(1, ⟨21, Status.Pending⟩), (2, ⟨22, Status.Pending⟩), (3, ⟨23, Status.Pending⟩),
    (4, ⟨24, Status.Pending⟩), (5, ⟨25, Status.Pending⟩)], 0⟩

/-- C3 (counterexample): with the consensus save failing at slot 3, the
execution-chain record at slot 3 is upgraded to Verified rather than being
left Pending — the pass issues the execution-side write before checking the
consensus error. -/
theorem claim_C3_counterexample :
    c3st.pandora.lookup 3 = some ⟨23, Status.Pending⟩ ∧
    (handlePreparedWork vanFailAt3 c3st (c3w 11 12 13 14 15 21 22 23 24 25)).state.pandora.lookup 3 =
      some ⟨23, Status.Verified⟩ ∧
    (handlePreparedWork vanFailAt3 c3st (c3w 11 12 13 14 15 21 22 23 24 25)).state.pandora.lookup 3 ≠
      c3st.pandora.lookup 3 := by
  decide

/-- C4 (amended): `handlePreparedWork` never reaches `log.Fatal`, whatever
the storage failures and whatever the payload: the negative-range check
compares an unsigned value against zero and is dead code. -/
theorem claim_C4 (cfg : FailCfg) (st : DBState) (w : invalidationWorkPayload) :
    (handlePreparedWork cfg st w).fatal = false := by
  unfold handlePreparedWork
  dsimp only
  split
  · rfl
  · split
    · rfl
    · split
      · next hlt => exact absurd hlt (Nat.not_lt_zero _)
      · rfl

/-- C4 separating state: watermark already at 1, both stores holding a
verified record at slot 0. -/
def c4st : DBState := ⟨[(0, ⟨5, Status.Verified⟩)], [(0, ⟨6, Status.Verified⟩)], 1⟩

/-- C4 separating payload: stale `fromSlot = 0` with start slot 1; the loop
re-verifies slot 0 and drags the re-read watermark below the start. -/
def c4w : invalidationWorkPayload :=
  ⟨1, 0, [], [some ⟨6, Status.Verified⟩], [some ⟨5, Status.Verified⟩], [], []⟩

/-- C4 (counterexample): a pass whose re-read watermark (0) is below the
invalidation start (1) — a negative invalidation range in the spec's sense —
does not fail fatally: the unsigned range wraps to `2^64 - 1` and the pass
proceeds. -/
theorem claim_C4_counterexample :
    latestAfterLoop c4st c4w < c4w.invalidationStartRealmSlot ∧
    invalidationRangeOf c4st c4w = 18446744073709551615 ∧
    (handlePreparedWork noFail c4st c4w).fatal = false :=
  ⟨by decide, by decide, rfl⟩

/-- C5 (code bug): with an empty pandora batch, the `default` branch of
`Canonicalize` blocks forever (on the unbuffered skip channel, then on the
empty work channel) instead of returning cleanly; the database state is left
untouched. -/
theorem claim_C5 :
    canonicalizeDefaultBranch noFail ⟨[], [], 0⟩ 0 (Except.ok [])
      (Except.ok [some ⟨5, Status.Pending⟩]) = CanonOutcome.blocked ⟨[], [], 0⟩ := by
  decide

/-- C10: `OnNewPendingVanguardBlock` with a nil block leaves the vanguard
store untouched and performs no effect at all — no hash-tree-root
computation, no store write — and surfaces nothing to the caller. -/
theorem claim_C10 (store : Store) (hashTreeRoot : BeaconBlock → Except Unit Hash)
    (saveFailAt : Nat → Bool) :
    OnNewPendingVanguardBlock store none hashTreeRoot saveFailAt = (store, []) := rfl

/-! ### Cache lemmas and claim C9 -/

theorem lruAdd_lookup_self (c : PanHeaderCache) (slot ptr : Nat) :
    (lruAdd c slot ptr).entries.lookup slot = some ptr := by
  unfold lruAdd maxPanHeaderCacheSize
  rw [show (1024 : Nat) = 1023 + 1 from rfl, List.take_succ_cons]
  simp [List.lookup]

theorem getD_concat (l : List Header) (a d : Header) : (l ++ [a]).getD l.length d = a := by
  rw [List.getD_eq_getElem?_getD, List.getElem?_concat_length]
  rfl

/-- The heap and pointer returned by `Get` after `Put`. -/
theorem Get_after_Put (heap : Heap) (c : PanHeaderCache) (slot p : Nat) :
    PanHeaderCache.Get (PanHeaderCache.Put heap c slot p).1
        (PanHeaderCache.Put heap c slot p).2 slot =
      ((heap ++ [heap.getD p 0]) ++ [(heap ++ [heap.getD p 0]).getD heap.length 0],
       lruAdd (lruAdd c slot heap.length) slot heap.length,
       Except.ok (heap ++ [heap.getD p 0]).length) := by
  unfold PanHeaderCache.Get PanHeaderCache.Put CopyHeader Heap.alloc
  rw [lruAdd_lookup_self]

/-- C9: `Put` deep-copies on insertion and `Get` deep-copies on read-out, so
`Put(s, h)` followed by `Get(s)` yields a header equal in value to `h` but
held in a cell distinct from `h`'s (and from the cell the cache holds), while
`Get` on a slot the cache does not hold fails with the not-found error
instead of returning a header. -/
theorem claim_C9 :
    (∀ (heap : Heap) (c : PanHeaderCache) (slot p : Nat), p < heap.length →
      ∃ q, (PanHeaderCache.Get (PanHeaderCache.Put heap c slot p).1
              (PanHeaderCache.Put heap c slot p).2 slot).2.2 = Except.ok q ∧
        (PanHeaderCache.Get (PanHeaderCache.Put heap c slot p).1
              (PanHeaderCache.Put heap c slot p).2 slot).1.getD q 0 = heap.getD p 0 ∧
        q ≠ p ∧ q ≠ (CopyHeader heap p).2 ∧ (CopyHeader heap p).2 ≠ p) ∧
    (∀ (heap : Heap) (c : PanHeaderCache) (slot : Nat),
      c.entries.lookup slot = none →
      (PanHeaderCache.Get heap c slot).2.2 = Except.error ()) := by
  constructor
  · intro heap c slot p hp
    refine ⟨(heap ++ [heap.getD p 0]).length, ?_, ?_, ?_, ?_, ?_⟩
    · rw [Get_after_Put]
    · rw [Get_after_Put]
      show ((heap ++ [heap.getD p 0]) ++
          [(heap ++ [heap.getD p 0]).getD heap.length 0]).getD
            (heap ++ [heap.getD p 0]).length 0 = heap.getD p 0
      rw [getD_concat, getD_concat]
    · have : (heap ++ [heap.getD p 0]).length = heap.length + 1 := by simp
      omega
    · show (heap ++ [heap.getD p 0]).length ≠ heap.length
      simp
    · show heap.length ≠ p
      omega
  · intro heap c slot hnone
    unfold PanHeaderCache.Get
    rw [hnone]

/-! ### Witnesses -/

/-- Clean-pair scenario state: empty stores, watermark 0. -/
def c1st : DBState := ⟨[], [], 0⟩

/-- Clean-pair scenario payload: both chains Pending at slot 1, nothing at
slot 0. -/
def c1w : invalidationWorkPayload :=
  ⟨0, 0, [], [none, some ⟨34, Status.Pending⟩], [none, some ⟨17, Status.Pending⟩], [], []⟩

/-- Witness for C1: in the clean-pair scenario both stores end Verified at
slot 1 with their hashes preserved and the watermark equals 1. -/
theorem claim_C1_witness :
    (handlePreparedWork noFail c1st c1w).state.vanguard.lookup (c1w.fromSlot + 1) =
        some ⟨17, Status.Verified⟩ ∧
    (handlePreparedWork noFail c1st c1w).state.pandora.lookup (c1w.fromSlot + 1) =
        some ⟨34, Status.Verified⟩ ∧
    c1w.fromSlot + 1 ≤ (handlePreparedWork noFail c1st c1w).state.realm ∧
    (handlePreparedWork noFail c1st c1w).state.realm = 1 := by
  have h := claim_C1 c1st c1w 1 ⟨17, Status.Pending⟩ ⟨34, Status.Pending⟩
    rfl rfl rfl rfl rfl rfl
  exact ⟨h.1, h.2.1, h.2.2, by decide⟩

/-- One-sided scenario state for C6. -/
def c6st : DBState := ⟨[], [], 0⟩

/-- One-sided scenario payload for C6: vanguard produced at slots 0 and 1,
pandora only at slot 1. -/
def c6w : invalidationWorkPayload :=
  ⟨0, 0, [], [none, some ⟨34, Status.Pending⟩],
   [some ⟨17, Status.Pending⟩, some ⟨18, Status.Pending⟩], [], []⟩

/-- Witness for C6: the vanguard orphan at slot 0 ends the pass Skipped with
the empty hash, its original hash 17 discarded, while the pass verified
slot 1. -/
theorem claim_C6_witness :
    (handlePreparedWork noFail c6st c6w).state.vanguard.lookup (c6w.fromSlot + 0) =
        some ⟨EmptyHash, Status.Skipped⟩ ∧
    (handlePreparedWork noFail c6st c6w).state.realm = 1 := by
  have h := (claim_C6 c6st c6w rfl rfl (by decide) (by decide)).1 0
    ⟨17, Status.Pending⟩ rfl rfl
  exact ⟨h, by decide⟩

/-- Possible-skipped scenario state for C8. -/
def c8st : DBState := ⟨[], [], 0⟩

/-- Possible-skipped scenario payload for C8: both chains silent at slots 0
and 2, both produced at slot 1. -/
def c8w : invalidationWorkPayload :=
  ⟨0, 0, [], [none, some ⟨34, Status.Pending⟩, none],
   [none, some ⟨17, Status.Pending⟩, none], [], []⟩

/-- Witness for C8: slot 0 (below the advanced watermark 1) ends Skipped on
both stores; slot 2 (above it) is left unmodified — absent as before — on
both stores. -/
theorem claim_C8_witness :
    (handlePreparedWork noFail c8st c8w).state.vanguard.lookup (c8w.fromSlot + 0) =
        some ⟨EmptyHash, Status.Skipped⟩ ∧
    (handlePreparedWork noFail c8st c8w).state.pandora.lookup (c8w.fromSlot + 0) =
        some ⟨EmptyHash, Status.Skipped⟩ ∧
    (handlePreparedWork noFail c8st c8w).state.vanguard.lookup (c8w.fromSlot + 2) =
        c8st.vanguard.lookup (c8w.fromSlot + 2) ∧
    (handlePreparedWork noFail c8st c8w).state.pandora.lookup (c8w.fromSlot + 2) =
        c8st.pandora.lookup (c8w.fromSlot + 2) := by
  have h0 := (claim_C8 c8st c8w 0 rfl rfl rfl rfl (by decide) (by decide) rfl rfl).1 (by decide)
  have h2 := (claim_C8 c8st c8w 2 rfl rfl rfl rfl (by decide) (by decide) rfl rfl).2 (by decide)
  exact ⟨h0.1, h0.2, h2.1, h2.2⟩

/-- Witness for C9: on the one-cell heap `[5]`, put-then-get at slot 3 round
trips the value 5 through two fresh cells. -/
theorem claim_C9_witness :
    (0 : Nat) < ([5] : Heap).length ∧
    ∃ q, (PanHeaderCache.Get (PanHeaderCache.Put [5] ⟨[]⟩ 3 0).1
            (PanHeaderCache.Put [5] ⟨[]⟩ 3 0).2 3).2.2 = Except.ok q ∧
      (PanHeaderCache.Get (PanHeaderCache.Put [5] ⟨[]⟩ 3 0).1
            (PanHeaderCache.Put [5] ⟨[]⟩ 3 0).2 3).1.getD q 0 = ([5] : Heap).getD 0 0 ∧
      q ≠ 0 ∧ q ≠ (CopyHeader [5] 0).2 ∧ (CopyHeader [5] 0).2 ≠ 0 :=
  ⟨by decide, claim_C9.1 [5] ⟨[]⟩ 3 0 (by decide)⟩

end Orchestrator
